import Mathlib

/-!
Verification of the TAAM persona classification core
(`apps/charts/taam_service.py`, `apps/charts/services.py`,
`apps/ingest/services.py`).

Numeric survey values are modelled with `ℚ` (the Python code uses IEEE
doubles; every concrete value appearing in the claims is exactly
representable, and Python's `round` on such values agrees with the
rational banker's rounding `pyRound` defined below).  Cosine similarity
needs a square root, so it lives in `ℝ`.
-/

namespace Taam

/-! ## Rounding utilities (Python `round` is banker's rounding: ties to even) -/

/-- Python 3 `round(q)`: nearest integer, ties to the even integer. -/
def pyRound (q : ℚ) : ℤ :=
  if q - (⌊q⌋ : ℚ) < 1/2 then ⌊q⌋
  else if 1/2 < q - (⌊q⌋ : ℚ) then ⌊q⌋ + 1
  else if 2 ∣ ⌊q⌋ then ⌊q⌋ else ⌊q⌋ + 1

/-- `round_to_quarter` from taam_service.py: `round(value * 4) / 4.0`. -/
def roundToQuarter (q : ℚ) : ℚ := (pyRound (4 * q) : ℚ) / 4

/-- Python `round(q, 2)` modelled on rationals. -/
def pyRound2 (q : ℚ) : ℚ := (pyRound (q * 100) : ℚ) / 100

/-! ## Raw cell values

A spreadsheet cell is a number, a string, or missing/None (NaN cells are
converted to None by `dataframe_to_records` before the core sees them). -/

inductive Val where
  | vnum (q : ℚ)
  | vstr (s : String)
  | vnone
deriving DecidableEq

/-- Python truthiness of a cell value (`if q20_raw:`). -/
def pyTruthy : Val → Bool
  | Val.vnone => false
  | Val.vnum q => q != 0
  | Val.vstr s => s != ""

/-- Character-level lowercasing (Python `str.lower`, ASCII range).
`String.toLower` itself is implemented with byte positions and does not
reduce in the kernel, so the list-of-characters form is used. -/
def lowerStr (s : String) : String := String.mk (s.toList.map Char.toLower)

/-- Character-level whitespace stripping (Python `str.strip`). -/
def trimStr (s : String) : String :=
  String.mk (((s.toList.dropWhile Char.isWhitespace).reverse.dropWhile
    Char.isWhitespace).reverse)

/-- `normalize_text` on a string: `str(text).strip().lower()`. -/
def normStr (s : String) : String := lowerStr (trimStr s)

/-- `normalize_text` from taam_service.py.  For numbers Python formats with
`str`; the exact decimal rendering is irrelevant to every claim (a numeric
q20 never resolves to a persona code either way), so `toString` stands in. -/
def normText : Val → String
  | Val.vnone => ""
  | Val.vnum q => normStr (toString q)
  | Val.vstr s => normStr s

/-- A respondent record: canonical lowercase key to raw cell value.
`none` means the key is absent; `some Val.vnone` means present but null. -/
abbrev Record := String → Option Val

/-! ## Association-list helpers (Python dicts preserve insertion order) -/

def alookup {β : Type} : List (String × β) → String → Option β
  | [], _ => none
  | p :: t, k => if p.1 = k then some p.2 else alookup t k

def lookupD {β : Type} (l : List (String × β)) (k : String) (d : β) : β :=
  (alookup l k).getD d

/-! ## Substring containment (Python `in` on strings) -/

def startsWithL : List Char → List Char → Bool
  | _, [] => true
  | [], _ :: _ => false
  | a :: as, b :: bs => a = b && startsWithL as bs

/-- `containsL hay pat = true` iff `pat` occurs contiguously in `hay`.
The empty pattern occurs in everything, as with Python's `in`. -/
def containsL : List Char → List Char → Bool
  | [], pat => pat.isEmpty
  | hay@(_ :: t), pat => startsWithL hay pat || containsL t pat

/-- Python `pat in hay` for strings. -/
def substrOf (pat hay : String) : Bool := containsL hay.toList pat.toList

/-! ## Python float(...) parsing (decimal subset)

Python's `float` also accepts `inf`/`nan`/underscored digits; those inputs
never yield a value in `[1,5]`, which is the only way the parse result is
used, so the decimal subset is faithful where it matters. -/

def allDigits (l : List Char) : Bool := !l.isEmpty && l.all Char.isDigit

def digitsVal (l : List Char) : ℕ := l.foldl (fun a c => 10 * a + (c.toNat - 48)) 0

def splitAtChar (c : Char) : List Char → Option (List Char × List Char)
  | [] => none
  | d :: t =>
    if d = c then some ([], t)
    else (splitAtChar c t).map (fun p => (d :: p.1, p.2))

def parseMantissa (l : List Char) : Option ℚ :=
  match splitAtChar '.' l with
  | none => if allDigits l then some (digitsVal l) else none
  | some (ip, fp) =>
    if (!ip.isEmpty || !fp.isEmpty) && ip.all Char.isDigit && fp.all Char.isDigit then
      some ((digitsVal ip : ℚ) + (digitsVal fp : ℚ) / (10 : ℚ) ^ fp.length)
    else none

def parseExp (l : List Char) : Option ℤ :=
  match l with
  | '+' :: t => if allDigits t then some (digitsVal t) else none
  | '-' :: t => if allDigits t then some (-(digitsVal t : ℤ)) else none
  | _ => if allDigits l then some (digitsVal l) else none

def parseUnsignedFloat (l : List Char) : Option ℚ :=
  match splitAtChar 'e' l with
  | none => parseMantissa l
  | some (m, e) =>
    match parseMantissa m, parseExp e with
    | some q, some z => some (q * (10 : ℚ) ^ z)
    | _, _ => none

/-- Python `float(s)` on an already stripped, lowercased string. -/
def parseFloat (s : String) : Option ℚ :=
  match s.toList with
  | '+' :: t => parseUnsignedFloat t
  | '-' :: t => (parseUnsignedFloat t).map Neg.neg
  | l => parseUnsignedFloat l

/-! ## Constants from `apps/charts/constants.py` -/

/-- Axis order (must match radar plotting). -/
def AXES : List String :=
  ["Price", "Quality", "Ingredients", "Social Pressure", "Brand Image", "Convenience"]

/-- `PERSONA_PROTOTYPES`: code ↦ (name, canonical 6-axis vector). -/
def PERSONAS : List (String × String × List ℚ) :=
  [ ("A", "Seamless Shoppers",      [2.5, 3.25, 3.25, 2.5, 2.5, 5.0]),
    ("B", "Value Hunters",          [5.0, 1.5, 2.0, 1.0, 2.5, 2.5]),
    ("C", "Aspirational Splurgers", [5.0, 2.5, 2.5, 5.0, 5.0, 1.0]),
    ("D", "Obligati",               [4.0, 3.5, 2.5, 5.0, 3.5, 2.5]),
    ("E", "Luxe Enthusiasts",       [2.5, 5.0, 5.0, 1.0, 4.0, 2.0]),
    ("F", "Dependables",            [4.0, 2.5, 1.0, 4.0, 5.0, 2.5]),
    ("G", "Sprezzatura",            [5.0, 3.0, 2.0, 3.25, 2.5, 2.5]),
    ("H", "Ascent Beautifiers",     [5.0, 5.0, 4.0, 2.0, 1.5, 3.25]),
    ("I", "Refined Connoisseurs",   [2.5, 5.0, 5.0, 1.0, 3.25, 2.0]),
    ("J", "Exotica Seekers",        [2.5, 2.0, 5.0, 1.0, 1.0, 1.0]) ]

/-- `PERSONA_CODES_ORDER` (also `sorted(PERSONA_PROTOTYPES.keys())` in
services.py). -/
def PERSONA_CODES_ORDER : List String :=
  ["A", "B", "C", "D", "E", "F", "G", "H", "I", "J"]

/-- `AXIS_WEIGHTS`: axis ↦ (question key ↦ weight), in source order. -/
def AXIS_WEIGHTS : List (String × List (String × ℚ)) :=
  [ ("Price",           [("Q8", 0.60), ("Q9", 0.40)]),
    ("Convenience",     [("Q18", 0.60), ("Q19", 0.40)]),
    ("Quality",         [("Q10", 0.70), ("Q11", 0.30)]),
    ("Ingredients",     [("Q12", 0.40), ("Q13", 0.60)]),
    ("Social Pressure", [("Q14", 0.50), ("Q15", 0.30), ("Q23", 0.20)]),
    ("Brand Image",     [("Q16", 0.50), ("Q17", 0.30), ("Q22", 0.20)]) ]

def IMPORTANCE_SCALE : List (String × ℚ) :=
  [ ("not at all", 1), ("not at all important", 1),
    ("slightly", 2), ("slightly important", 2),
    ("moderately", 3), ("moderately important", 3), ("neutral", 3), ("very much", 4),
    ("very", 4), ("very important", 4),
    ("completely", 5), ("extremely important", 5),
    ("1", 1), ("2", 2), ("3", 3), ("4", 4), ("5", 5) ]

def FREQUENCY_SCALE : List (String × ℚ) :=
  [ ("never", 1), ("rarely", 2), ("sometimes", 3), ("often", 4), ("always", 5),
    ("1", 1), ("2", 2), ("3", 3), ("4", 4), ("5", 5) ]

def PAY_MORE_SCALE : List (String × ℚ) :=
  [ ("no, never", 1), ("no, not often", 2), ("neutral", 3),
    ("yes, sometimes", 4), ("yes, always", 5),
    ("never", 1), ("rarely", 2), ("sometimes", 4), ("often", 4), ("always", 5),
    ("1", 1), ("2", 2), ("3", 3), ("4", 4), ("5", 5) ]

def LAUNCH_BEHAVIOR_SCALE : List (String × ℚ) :=
  [ ("i rarely pay attention to new launches.", 1), ("rarely", 1),
    ("i only buy if the product is aligned with my preferences and budget.", 2),
    ("only if aligned", 2),
    ("i wait for reviews before making a purchase.", 3), ("wait for reviews", 3),
    ("i get excited and want to try them immediately.", 5), ("try immediately", 5),
    ("1", 1), ("2", 2), ("3", 3), ("5", 5) ]

def INFLUENCER_SCALE : List (String × ℚ) :=
  [ ("not likely", 1), ("slightly likely", 2), ("moderately likely", 3),
    ("very likely", 4), ("extremely likely", 5),
    ("1", 1), ("2", 2), ("3", 3), ("4", 4), ("5", 5) ]

def INCOME_REACTION_SCALE : List (String × ℚ) :=
  [ ("save most", 1), ("save", 1), ("slight increase", 3),
    ("spend more luxury", 5), ("spend luxury", 5),
    ("1", 1), ("3", 3), ("5", 5) ]

/-- `CORE_TAAM_QUESTIONS` from constants.py. -/
def CORE_TAAM_QUESTIONS : List String :=
  ["q8", "q9", "q10", "q11", "q12", "q13", "q14", "q16", "q18", "q19"]

/-- `MIN_TAAM_QUESTIONS` from constants.py. -/
def MIN_TAAM_QUESTIONS : ℕ := 8

/-! ## Q20 anchor parsing (`_q20_to_code`) -/

/-- Rule 1: a single alphabetic character whose uppercase is a persona code. -/
def q20Step1 (s : String) : Option String :=
  match s.toList with
  | [c] =>
    if c.isAlpha then
      let code := String.mk [c.toUpper]
      if (alookup PERSONAS code).isSome then some code else none
    else none
  | _ => none

/-- The first regex match of `\(([^)]+)\)`: the content of the first
parenthesized group that is nonempty and properly closed. -/
def firstParenGroup : List Char → Option (List Char)
  | [] => none
  | c :: rest =>
    if c = '(' then
      let run := rest.takeWhile (fun d => d ≠ ')')
      if run.isEmpty then firstParenGroup rest
      else if (rest.drop run.length).isEmpty then firstParenGroup rest
      else some run
    else firstParenGroup rest

/-- `_code_by_persona_name`: the first persona whose normalized display name
equals the normalized input. -/
def codeByPersonaName (n : String) : Option String :=
  (PERSONAS.find? (fun p => normStr p.2.1 = normStr n)).map (fun p => p.1)

/-- Rule 2: parenthesized persona name. -/
def q20Step2 (s : String) : Option String :=
  match firstParenGroup s.toList with
  | none => none
  | some g => codeByPersonaName (trimStr (String.mk g))

/-- Rule 3: any persona display name contained in the text, table order. -/
def q20Step3 (s : String) : Option String :=
  (PERSONAS.find? (fun p => substrOf (normStr p.2.1) s)).map (fun p => p.1)

/-- Regex word character (`\w`, ASCII). -/
def wordChar (c : Char) : Bool := c.isAlphanum || c = '_'

/-- The first regex match of `\b([a-j])\b`: first standalone letter a-j. -/
def findStandaloneLetter : Option Char → List Char → Option Char
  | _, [] => none
  | prev, c :: rest =>
    if ('a' ≤ c && c ≤ 'j')
        && (match prev with | none => true | some p => !wordChar p)
        && (match rest with | [] => true | d :: _ => !wordChar d) then
      some c
    else findStandaloneLetter (some c) rest

/-- Rule 4: a standalone single-letter token a-j resolving to a valid code. -/
def q20Step4 (s : String) : Option String :=
  match findStandaloneLetter none s.toList with
  | none => none
  | some c =>
    let code := String.mk [c.toUpper]
    if (alookup PERSONAS code).isSome then some code else none

/-- `_q20_to_code` from taam_service.py. -/
def q20ToCode (raw : Val) : Option String :=
  match raw with
  | Val.vnone => none
  | _ =>
    let s := normText raw
    match q20Step1 s with
    | some c => some c
    | none =>
      match q20Step2 s with
      | some c => some c
      | none =>
        match q20Step3 s with
        | some c => some c
        | none => q20Step4 s

/-! ## Scale mapping (`map_answer_to_scale`) -/

/-- Scale table assigned to a question key, if any. -/
def scaleFor (qk : String) : Option (List (String × ℚ)) :=
  if qk ∈ ["q8", "q10", "q12", "q14", "q16", "q18"] then some IMPORTANCE_SCALE
  else if qk ∈ ["q9", "q17", "q19"] then some FREQUENCY_SCALE
  else if qk = "q11" then some PAY_MORE_SCALE
  else if qk = "q22" then some LAUNCH_BEHAVIOR_SCALE
  else if qk = "q23" then some INFLUENCER_SCALE
  else if qk = "q21" then some INCOME_REACTION_SCALE
  else none

/-- Numeric fallback: parse as float, accept only inside `[1, 5]`. -/
def floatIn15 (t : String) : Option ℚ :=
  match parseFloat t with
  | some v => if 1 ≤ v ∧ v ≤ 5 then some v else none
  | none => none

/-- Stage (a): exact lookup of the normalized text as a table key. -/
def exactScale (scale : List (String × ℚ)) (t : String) : Option ℚ := alookup scale t

/-- Stage (b): substring containment in either direction, first table entry
that matches wins. -/
def looseScale (scale : List (String × ℚ)) (t : String) : Option ℚ :=
  (scale.find? (fun p => substrOf p.1 t || substrOf t p.1)).map (fun p => p.2)

/-- `map_answer_to_scale` from taam_service.py. -/
def mapAnswerToScale (qk : String) (ans : Val) : Option ℚ :=
  match ans with
  | Val.vnum q => if 1 ≤ q ∧ q ≤ 5 then some q else none
  | _ =>
    let t := normText ans
    match scaleFor qk with
    | none => floatIn15 t
    | some scale =>
      match exactScale scale t with
      | some v => some v
      | none =>
        match looseScale scale t with
        | some v => some v
        | none => floatIn15 t

/-! ## Axis computation (`compute_axis_score`, `compute_all_axes`) -/

/-- One iteration of the accumulation loop of `compute_axis_score`:
skip the question unless the record has it and it maps to a scale value,
else add `value * weight` and `weight` to the running sums. -/
def axisStep (r : Record) (acc : ℚ × ℚ) (p : String × ℚ) : ℚ × ℚ :=
  match r (lowerStr p.1) with
  | none => acc
  | some v =>
    match mapAnswerToScale (lowerStr p.1) v with
    | none => acc
    | some x => (acc.1 + x * p.2, acc.2 + p.2)

/-- The accumulation loop of `compute_axis_score`: returns
`(weighted_sum, total_weight)`. -/
def axisAccum (r : Record) (weights : List (String × ℚ)) : ℚ × ℚ :=
  weights.foldl (axisStep r) (0, 0)

/-- `compute_axis_score` from taam_service.py. -/
def computeAxisScore (r : Record) (axis : String) : Option ℚ :=
  match alookup AXIS_WEIGHTS axis with
  | none => none
  | some weights =>
    let st := axisAccum r weights
    if st.2 = 0 then none else some (roundToQuarter (st.1 / st.2))

/-- `compute_all_axes`: axis scores in the fixed axis order, omitting
absent axes. -/
def computeAllAxes (r : Record) : List (String × ℚ) :=
  AXES.filterMap (fun ax => (computeAxisScore r ax).map (fun v => (ax, v)))

/-! ## Persona classification -/

def personaName (c : String) : String :=
  ((alookup PERSONAS c).map (fun p => p.1)).getD ""

def personaVec (c : String) : List ℚ :=
  ((alookup PERSONAS c).map (fun p => p.2)).getD []

/-- The axis-score dict built on the anchor path:
`{AXES[i]: vec[i] for i in range(len(AXES))}`. -/
def protoAxisMap (c : String) : List (String × ℚ) := AXES.zip (personaVec c)

/-- The anchor decision of `determine_persona`:
`_q20_to_code(q20_raw) if q20_raw else None`. -/
def anchorCode (r : Record) : Option String :=
  match r "q20" with
  | none => none
  | some v => if pyTruthy v then q20ToCode v else none

def dotQ (v w : List ℚ) : ℚ := (List.zipWith (fun a b => a * b) v w).sum

/-- `cosine_similarity` from taam_service.py.  `np.linalg.norm v = 0` iff
`dotQ v v = 0`, so the zero-norm guard is expressed on the squared norms. -/
noncomputable def cosineSimilarity (v w : List ℚ) : ℝ :=
  if dotQ v v = 0 ∨ dotQ w w = 0 then 0
  else (dotQ v w : ℝ) / (Real.sqrt (dotQ v v : ℚ) * Real.sqrt (dotQ w w : ℚ))

/-- The user vector: `[axis_scores.get(axis, 0.0) for axis in AXES]`. -/
def userVec (sc : List (String × ℚ)) : List ℚ :=
  AXES.map (fun ax => lookupD sc ax 0)

/-- The candidates iterated by `find_closest_persona`, in table order:
`((code, name), similarity)`. -/
noncomputable def simPairs (sc : List (String × ℚ)) : List ((String × String) × ℝ) :=
  PERSONAS.map (fun p => ((p.1, p.2.1), cosineSimilarity (userVec sc) p.2.2))

open Classical in
/-- The best-candidate loop: replace the best only on strict improvement. -/
noncomputable def pickBest {α : Type} (l : List (α × ℝ)) (b : α × ℝ) : α × ℝ :=
  l.foldl (fun acc x => if acc.2 < x.2 then x else acc) b

/-- `find_closest_persona` from taam_service.py. -/
noncomputable def findClosestPersona (sc : List (String × ℚ)) : String × String × ℝ :=
  let r := pickBest (simPairs sc) (("", ""), -1)
  (r.1.1, r.1.2, r.2)

/-- `determine_persona` from taam_service.py. -/
noncomputable def determinePersona (r : Record) :
    String × String × List (String × ℚ) × Bool :=
  match anchorCode r with
  | some c => (c, personaName c, protoAxisMap c, true)
  | none =>
    let sc := computeAllAxes r
    if sc.length < 4 then ("", "Unknown", sc, false)
    else
      let t := findClosestPersona sc
      (t.1, t.2.1, sc, false)

/-! ## Aggregation (`apps/charts/services.py`) -/

/-- `_is_valid_persona`: `bool(name) and name != "Unknown"`. -/
def validPersona (n : String) : Bool := n != "" && n != "Unknown"

/-- The multiset of persona names counted by the `Counter` in
`generate_taam_persona_distribution` (valid classifications only). -/
noncomputable def classifiedNames (records : List Record) : List String :=
  records.filterMap (fun r =>
    let t := determinePersona r
    if validPersona t.2.1 then some t.2.1 else none)

structure DistEntry where
  persona : String
  code : String
  count : ℕ
  percent : ℚ
deriving DecidableEq

/-- `generate_taam_persona_distribution`: the distribution list plus
`total_respondents`. -/
noncomputable def generateTaamPersonaDistribution (records : List Record) :
    List DistEntry × ℕ :=
  let ns := classifiedNames records
  let total := ns.length
  (PERSONA_CODES_ORDER.map (fun c =>
      let name := personaName c
      let cnt := ns.count name
      { persona := name, code := c, count := cnt,
        percent := if 0 < total then pyRound2 ((cnt : ℚ) / (total : ℚ) * 100) else 0 }),
   total)

/-- `persona_axes.setdefault(name, []).append(scores)`. -/
def addGroup : List (String × List (List (String × ℚ))) → String → List (String × ℚ) →
    List (String × List (List (String × ℚ)))
  | [], n, a => [(n, [a])]
  | p :: t, n, a =>
    if p.1 = n then (p.1, p.2 ++ [a]) :: t else p :: addGroup t n a

/-- One step of the grouping loop of `generate_taam_heatmap`: a row
contributes exactly when its persona is valid and its axis-score mapping is
nonempty. -/
noncomputable def groupStep (g : List (String × List (List (String × ℚ))))
    (r : Record) : List (String × List (List (String × ℚ))) :=
  if validPersona (determinePersona r).2.1 && !(determinePersona r).2.2.1.isEmpty
  then addGroup g (determinePersona r).2.1 (determinePersona r).2.2.1 else g

/-- The grouping loop of `generate_taam_heatmap` (observed mode). -/
noncomputable def buildGroups (records : List Record) :
    List (String × List (List (String × ℚ))) :=
  records.foldl groupStep []

/-- Per-persona averaging: for each axis, mean over the score maps that
contain the axis, rounded to 2 decimals; axes with no values are skipped. -/
def avgAxes (ls : List (List (String × ℚ))) : List (String × ℚ) :=
  AXES.filterMap (fun ax =>
    let vals := ls.filterMap (fun a => alookup a ax)
    if vals.isEmpty then none
    else some (ax, pyRound2 (vals.sum / (vals.length : ℚ))))

/-- `generate_taam_heatmap` in observed mode (`use_canonical=False`). -/
noncomputable def generateTaamHeatmap (records : List Record) :
    List (String × List (String × ℚ)) :=
  (buildGroups records).filterMap (fun p =>
    if p.2.isEmpty then none
    else
      let avg := avgAxes p.2
      if avg.isEmpty then none else some (p.1, avg))

/-! ## Dataset detection (`apps/ingest/services.py`) -/

/-- `is_taam_dataset`: count core TAAM question keys among the lowercased
column names; true iff at least `MIN_TAAM_QUESTIONS`. -/
def isTaamDataset (cols : List String) : Bool :=
  let lc := cols.map lowerStr
  decide (MIN_TAAM_QUESTIONS ≤ (CORE_TAAM_QUESTIONS.filter (fun q => lc.contains q)).length)

/-! ## Helper lemmas: rounding -/

theorem pyRound_ge (q : ℚ) : q - 1/2 ≤ (pyRound q : ℚ) := by
  unfold pyRound
  have hf1 : ((⌊q⌋ : ℤ) : ℚ) ≤ q := Int.floor_le q
  have hf2 : q < (⌊q⌋ : ℚ) + 1 := Int.lt_floor_add_one q
  split_ifs <;> push_cast <;> linarith

theorem pyRound_le (q : ℚ) : (pyRound q : ℚ) ≤ q + 1/2 := by
  unfold pyRound
  have hf1 : ((⌊q⌋ : ℤ) : ℚ) ≤ q := Int.floor_le q
  have hf2 : q < (⌊q⌋ : ℚ) + 1 := Int.lt_floor_add_one q
  split_ifs <;> push_cast <;> linarith

theorem roundToQuarter_bounds (q : ℚ) (h1 : 1 ≤ q) (h5 : q ≤ 5) :
    1 ≤ roundToQuarter q ∧ roundToQuarter q ≤ 5 := by
  unfold roundToQuarter
  have hg := pyRound_ge (4 * q)
  have hl := pyRound_le (4 * q)
  have hlow : (3 : ℤ) < pyRound (4 * q) := by
    have : (3 : ℚ) < (pyRound (4 * q) : ℚ) := by linarith
    exact_mod_cast this
  have hhigh : pyRound (4 * q) < (21 : ℤ) := by
    have : (pyRound (4 * q) : ℚ) < 21 := by linarith
    exact_mod_cast this
  constructor
  · have h4 : (4 : ℚ) ≤ (pyRound (4 * q) : ℚ) := by exact_mod_cast hlow
    linarith
  · have h20 : (pyRound (4 * q) : ℚ) ≤ 20 := by exact_mod_cast Int.lt_add_one_iff.mp hhigh
    linarith

theorem roundToQuarter_quarter (q : ℚ) : ∃ k : ℤ, roundToQuarter q = (k : ℚ) / 4 :=
  ⟨pyRound (4 * q), rfl⟩

/-! ## Helper lemmas: association lists and scale tables -/

theorem alookup_mem {β : Type} {l : List (String × β)} {k : String} {v : β}
    (h : alookup l k = some v) : (k, v) ∈ l := by
  induction l with
  | nil => simp [alookup] at h
  | cons p t ih =>
    obtain ⟨p1, p2⟩ := p
    by_cases hk : p1 = k
    · subst hk
      have hv : p2 = v := by simpa [alookup] using h
      subst hv
      exact List.mem_cons_self _ _
    · simp only [alookup, hk, if_neg, ite_false] at h
      exact List.mem_cons_of_mem _ (ih h)

/-- All six scale tables only hold values in `[1, 5]`. -/
theorem scale_values_range :
    ∀ s ∈ [IMPORTANCE_SCALE, FREQUENCY_SCALE, PAY_MORE_SCALE,
           LAUNCH_BEHAVIOR_SCALE, INFLUENCER_SCALE, INCOME_REACTION_SCALE],
      ∀ p ∈ s, 1 ≤ p.2 ∧ p.2 ≤ 5 := by decide

theorem scaleFor_cases {qk : String} {scale : List (String × ℚ)}
    (h : scaleFor qk = some scale) :
    scale ∈ [IMPORTANCE_SCALE, FREQUENCY_SCALE, PAY_MORE_SCALE,
             LAUNCH_BEHAVIOR_SCALE, INFLUENCER_SCALE, INCOME_REACTION_SCALE] := by
  unfold scaleFor at h
  split_ifs at h <;> simp_all

theorem floatIn15_range {t : String} {x : ℚ} (h : floatIn15 t = some x) :
    1 ≤ x ∧ x ≤ 5 := by
  unfold floatIn15 at h
  cases hp : parseFloat t with
  | none => rw [hp] at h; exact absurd h (by simp)
  | some v =>
    rw [hp] at h
    simp only at h
    split_ifs at h with hr
    obtain rfl := Option.some_injective _ h
    exact hr

/-- Whatever `map_answer_to_scale` returns lies in `[1, 5]`. -/
theorem mapAnswerToScale_range {qk : String} {v : Val} {x : ℚ}
    (h : mapAnswerToScale qk v = some x) : 1 ≤ x ∧ x ≤ 5 := by
  have hTab : ∀ scale, scaleFor qk = some scale →
      ∀ y : ℚ, exactScale scale (normText v) = some y ∨
        looseScale scale (normText v) = some y → 1 ≤ y ∧ y ≤ 5 := by
    intro scale hs y hy
    have hmem := scaleFor_cases hs
    rcases hy with hy | hy
    · exact scale_values_range scale hmem _ (alookup_mem hy)
    · unfold looseScale at hy
      cases hf : scale.find? (fun p => substrOf p.1 (normText v) ||
          substrOf (normText v) p.1) with
      | none => rw [hf] at hy; exact absurd hy (by simp)
      | some p =>
        rw [hf] at hy
        obtain rfl : p.2 = y := by simpa using hy
        exact scale_values_range scale hmem _ (List.mem_of_find?_eq_some hf)
  cases v with
  | vnum q =>
    unfold mapAnswerToScale at h
    simp only at h
    split_ifs at h with hr
    obtain rfl := Option.some_injective _ h
    exact hr
  | vnone =>
    unfold mapAnswerToScale at h
    simp only at h
    cases hs : scaleFor qk with
    | none => rw [hs] at h; exact floatIn15_range h
    | some scale =>
      rw [hs] at h
      simp only at h
      cases he : exactScale scale (normText Val.vnone) with
      | some y =>
        rw [he] at h
        simp only at h
        obtain rfl := Option.some_injective _ h
        exact hTab scale hs _ (Or.inl he)
      | none =>
        rw [he] at h
        simp only at h
        cases hl : looseScale scale (normText Val.vnone) with
        | some y =>
          rw [hl] at h
          simp only at h
          obtain rfl := Option.some_injective _ h
          exact hTab scale hs _ (Or.inr hl)
        | none => rw [hl] at h; simp only at h; exact floatIn15_range h
  | vstr s =>
    unfold mapAnswerToScale at h
    simp only at h
    cases hs : scaleFor qk with
    | none => rw [hs] at h; exact floatIn15_range h
    | some scale =>
      rw [hs] at h
      simp only at h
      cases he : exactScale scale (normText (Val.vstr s)) with
      | some y =>
        rw [he] at h
        simp only at h
        obtain rfl := Option.some_injective _ h
        exact hTab scale hs _ (Or.inl he)
      | none =>
        rw [he] at h
        simp only at h
        cases hl : looseScale scale (normText (Val.vstr s)) with
        | some y =>
          rw [hl] at h
          simp only at h
          obtain rfl := Option.some_injective _ h
          exact hTab scale hs _ (Or.inr hl)
        | none => rw [hl] at h; simp only at h; exact floatIn15_range h

/-! ## Helper lemmas: axis scoring -/

theorem axisStep_cases (r : Record) (acc : ℚ × ℚ) (p : String × ℚ) :
    axisStep r acc p = acc ∨
      ∃ x : ℚ, 1 ≤ x ∧ x ≤ 5 ∧ axisStep r acc p = (acc.1 + x * p.2, acc.2 + p.2) := by
  cases hr : r (lowerStr p.1) with
  | none => left; simp [axisStep, hr]
  | some v =>
    cases hm : mapAnswerToScale (lowerStr p.1) v with
    | none => left; simp [axisStep, hr, hm]
    | some x =>
      obtain ⟨h1, h5⟩ := mapAnswerToScale_range hm
      exact Or.inr ⟨x, h1, h5, by simp [axisStep, hr, hm]⟩

theorem axisFold_range (r : Record) :
    ∀ (wl : List (String × ℚ)), (∀ p ∈ wl, 0 < p.2) → ∀ s t : ℚ,
      0 ≤ t → t ≤ s → s ≤ 5 * t →
      0 ≤ (wl.foldl (axisStep r) (s, t)).2 ∧
        (wl.foldl (axisStep r) (s, t)).2 ≤ (wl.foldl (axisStep r) (s, t)).1 ∧
        (wl.foldl (axisStep r) (s, t)).1 ≤ 5 * (wl.foldl (axisStep r) (s, t)).2 := by
  intro wl
  induction wl with
  | nil => intro _ s t h0 h1 h2; simpa using ⟨h0, h1, h2⟩
  | cons p tl ih =>
    intro hw s t h0 h1 h2
    have hp : 0 < p.2 := hw p (List.mem_cons_self p tl)
    have hw' : ∀ q ∈ tl, 0 < q.2 := fun q hq => hw q (List.mem_cons_of_mem p hq)
    rw [List.foldl_cons]
    rcases axisStep_cases r (s, t) p with hcase | ⟨x, hx1, hx5, hcase⟩
    · rw [hcase]; exact ih hw' s t h0 h1 h2
    · rw [hcase]
      have hxw : p.2 ≤ x * p.2 := by nlinarith
      have hxw5 : x * p.2 ≤ 5 * p.2 := by nlinarith
      exact ih hw' (s + x * p.2) (t + p.2) (by linarith) (by linarith)
        (by linarith)

/-- All axis weights are strictly positive. -/
theorem axis_weights_pos : ∀ q ∈ AXIS_WEIGHTS, ∀ p ∈ q.2, 0 < p.2 := by
  intro q hq p hp
  fin_cases hq <;> fin_cases hp <;> norm_num

theorem axisAccum_range (r : Record) (wl : List (String × ℚ))
    (hw : ∀ p ∈ wl, 0 < p.2) :
    0 ≤ (axisAccum r wl).2 ∧ (axisAccum r wl).2 ≤ (axisAccum r wl).1 ∧
      (axisAccum r wl).1 ≤ 5 * (axisAccum r wl).2 := by
  unfold axisAccum
  exact axisFold_range r wl hw 0 0 le_rfl le_rfl (by norm_num)

/-- Core invariant of the axis scorer: every produced score lies in `[1, 5]`
and is an integer multiple of `1/4`. -/
theorem computeAxisScore_props {r : Record} {axis : String} {v : ℚ}
    (h : computeAxisScore r axis = some v) :
    (1 ≤ v ∧ v ≤ 5) ∧ ∃ k : ℤ, v = (k : ℚ) / 4 := by
  unfold computeAxisScore at h
  cases hW : alookup AXIS_WEIGHTS axis with
  | none => rw [hW] at h; exact absurd h (by simp)
  | some wl =>
    rw [hW] at h
    simp only at h
    have hwpos : ∀ p ∈ wl, 0 < p.2 := by
      intro p hp
      exact axis_weights_pos (axis, wl) (alookup_mem hW) p hp
    obtain ⟨ha, hb, hc⟩ := axisAccum_range r wl hwpos
    split_ifs at h with ht
    have hv := (Option.some_injective _ h).symm
    have htpos : 0 < (axisAccum r wl).2 := lt_of_le_of_ne ha (Ne.symm ht)
    have h1 : 1 ≤ (axisAccum r wl).1 / (axisAccum r wl).2 := by
      rw [le_div_iff htpos]; linarith
    have h5 : (axisAccum r wl).1 / (axisAccum r wl).2 ≤ 5 := by
      rw [div_le_iff htpos]; linarith
    subst hv
    exact ⟨roundToQuarter_bounds _ h1 h5, roundToQuarter_quarter _⟩

/-! ## Helper lemmas: evaluating `pyRound` on concrete inputs -/

theorem floor_eval {q : ℚ} {f : ℤ} (h1 : (f : ℚ) ≤ q) (h2 : q < f + 1) : ⌊q⌋ = f :=
  Int.floor_eq_iff.mpr ⟨h1, h2⟩

theorem pyRound_eval {q : ℚ} {f : ℤ} (h1 : (f : ℚ) ≤ q) (h2 : q < f + 1) :
    pyRound q =
      if q - f < 1/2 then f
      else if 1/2 < q - f then f + 1
      else if 2 ∣ f then f else f + 1 := by
  rw [pyRound, floor_eval h1 h2]

/-! ## Spec-side formulation of the axis scorer (for the rounding claim)

`axisContribs` lists the `(scale value, weight)` pairs of the questions that
actually contribute, so `weighted_sum / total_weight` can be written as
explicit sums and compared with the fold in the code. -/

def axisContribs (r : Record) (weights : List (String × ℚ)) : List (ℚ × ℚ) :=
  weights.filterMap (fun p =>
    match r (lowerStr p.1) with
    | none => none
    | some v => (mapAnswerToScale (lowerStr p.1) v).map (fun x => (x, p.2)))

def contribWSum (l : List (ℚ × ℚ)) : ℚ := (l.map (fun p => p.1 * p.2)).sum

def contribTW (l : List (ℚ × ℚ)) : ℚ := (l.map (fun p => p.2)).sum

theorem contribWSum_cons (a : ℚ × ℚ) (l : List (ℚ × ℚ)) :
    contribWSum (a :: l) = a.1 * a.2 + contribWSum l := by simp [contribWSum]

theorem contribTW_cons (a : ℚ × ℚ) (l : List (ℚ × ℚ)) :
    contribTW (a :: l) = a.2 + contribTW l := by simp [contribTW]

theorem axisFold_eq (r : Record) (wl : List (String × ℚ)) :
    ∀ s t : ℚ, wl.foldl (axisStep r) (s, t) =
      (s + contribWSum (axisContribs r wl), t + contribTW (axisContribs r wl)) := by
  induction wl with
  | nil => intro s t; simp [axisContribs, contribWSum, contribTW]
  | cons p tl ih =>
    intro s t
    rw [List.foldl_cons]
    cases hr : r (lowerStr p.1) with
    | none =>
      have hstep : axisStep r (s, t) p = (s, t) := by simp [axisStep, hr]
      rw [hstep, ih]
      simp [axisContribs, hr]
    | some v =>
      cases hm : mapAnswerToScale (lowerStr p.1) v with
      | none =>
        have hstep : axisStep r (s, t) p = (s, t) := by simp [axisStep, hr, hm]
        rw [hstep, ih]
        simp [axisContribs, hr, hm]
      | some x =>
        have hstep : axisStep r (s, t) p = (s + x * p.2, t + p.2) := by
          simp [axisStep, hr, hm]
        rw [hstep, ih]
        simp only [axisContribs, List.filterMap_cons, hr, hm, Option.map_some',
          contribWSum_cons, contribTW_cons, Prod.mk.injEq]
        constructor <;> ring

theorem axisAccum_eq (r : Record) (wl : List (String × ℚ)) :
    axisAccum r wl =
      (contribWSum (axisContribs r wl), contribTW (axisContribs r wl)) := by
  unfold axisAccum
  rw [axisFold_eq r wl 0 0]
  norm_num

/-- Round half away from zero, as the claim's words describe the rounding:
the integer nearest to `q`, with exact halves moved away from zero. -/
def awayRound (q : ℚ) : ℤ :=
  if q < 0 then -(if 1/2 ≤ -q - (⌊-q⌋ : ℚ) then ⌊-q⌋ + 1 else ⌊-q⌋)
  else if 1/2 ≤ q - (⌊q⌋ : ℚ) then ⌊q⌋ + 1 else ⌊q⌋

/-- The axis scorer as the claim describes it: identical accumulation, but
the final value is `score*4` rounded half away from zero, divided by 4. -/
def specAxisScoreAway (r : Record) (axis : String) : Option ℚ :=
  match alookup AXIS_WEIGHTS axis with
  | none => none
  | some weights =>
    let st := axisAccum r weights
    if st.2 = 0 then none else some ((awayRound (4 * (st.1 / st.2)) : ℚ) / 4)

/-! ## Claims C4, C5, C7, C8 -/

/-- C4: for every respondent record and axis, whenever `compute_axis_score`
returns a value, that value lies in the closed interval `[1, 5]` and is an
integer multiple of `0.25`, for arbitrary raw cell values. -/
theorem c4_axis_score_range (r : Record) (axis : String) (v : ℚ)
    (h : computeAxisScore r axis = some v) :
    (1 ≤ v ∧ v ≤ 5) ∧ ∃ k : ℤ, v = (k : ℚ) / 4 :=
  computeAxisScore_props h

def c4rec : Record := fun k => if k = "q8" then some (Val.vnum 5) else none

theorem c4_axis_score_range_witness :
    computeAxisScore c4rec "Price" = some 5 ∧
      ((1 ≤ (5 : ℚ) ∧ (5 : ℚ) ≤ 5) ∧ ∃ k : ℤ, (5 : ℚ) = (k : ℚ) / 4) := by
  have h : computeAxisScore c4rec "Price" = some 5 := by
    have hacc : axisAccum c4rec [("Q8", (3/5 : ℚ)), ("Q9", 2/5)] = (3, 3/5) := by
      norm_num +decide [axisAccum, axisStep, c4rec, mapAnswerToScale]
    have hpr : pyRound (20 : ℚ) = 20 := by
      rw [pyRound_eval (f := 20) (by norm_num) (by norm_num)]
      norm_num
    norm_num +decide [computeAxisScore, alookup, AXIS_WEIGHTS, hacc, roundToQuarter, hpr]
  exact ⟨h, c4_axis_score_range c4rec "Price" 5 h⟩

def c5rec : Record := fun k => if k = "q14" then some (Val.vnum (9/8)) else none

/-- C5 counterexample: on the record `{q14: 1.125}` the Social Pressure score
is `1.125`, and `1.125 * 4 = 4.5` is an exact half.  The code (Python `round`,
ties to even) produces `1.0`, while the claimed round-half-away-from-zero
semantics would produce `1.25`, so the claim is false as stated. -/
theorem c5_round_half_away_refuted :
    computeAxisScore c5rec "Social Pressure" = some 1 ∧
      specAxisScoreAway c5rec "Social Pressure" = some (5/4) ∧ (1 : ℚ) ≠ 5/4 := by
  have hacc : axisAccum c5rec [("Q14", (1/2 : ℚ)), ("Q15", 3/10), ("Q23", 1/5)]
      = (9/16, 1/2) := by
    norm_num +decide [axisAccum, axisStep, c5rec, mapAnswerToScale]
  have hf : ⌊(9/2 : ℚ)⌋ = 4 := floor_eval (by norm_num) (by norm_num)
  have hpr : pyRound (9/2 : ℚ) = 4 := by
    rw [pyRound_eval (f := 4) (by norm_num) (by norm_num)]
    norm_num
  have haw : awayRound (9/2 : ℚ) = 5 := by
    rw [awayRound, if_neg (by norm_num), hf]
    norm_num
  refine ⟨?_, ?_, by norm_num⟩
  · norm_num +decide [computeAxisScore, alookup, AXIS_WEIGHTS, hacc, roundToQuarter, hpr]
  · norm_num +decide [specAxisScoreAway, alookup, AXIS_WEIGHTS, hacc, haw]

/-- C5 amended: for every record and axis whose total matched weight is
nonzero, `compute_axis_score` equals `weighted_sum / total_weight` rounded to
the nearest `0.25`, where the integer nearest to `score*4` is taken with
Python `round` semantics — exact halves go to the even integer (banker's
rounding), not away from zero — and then divided by 4. -/
theorem c5_axis_rounding (r : Record) (axis : String) (wl : List (String × ℚ))
    (hW : alookup AXIS_WEIGHTS axis = some wl)
    (ht : contribTW (axisContribs r wl) ≠ 0) :
    computeAxisScore r axis =
      some ((pyRound (4 * (contribWSum (axisContribs r wl) /
        contribTW (axisContribs r wl))) : ℚ) / 4) := by
  unfold computeAxisScore
  rw [hW]
  simp only
  rw [axisAccum_eq]
  simp only
  rw [if_neg ht]
  rfl

theorem c5_axis_rounding_witness :
    alookup AXIS_WEIGHTS "Social Pressure"
        = some [("Q14", 0.50), ("Q15", 0.30), ("Q23", 0.20)] ∧
    contribTW (axisContribs c5rec [("Q14", 0.50), ("Q15", 0.30), ("Q23", 0.20)]) ≠ 0 ∧
    computeAxisScore c5rec "Social Pressure" =
      some ((pyRound (4 * (contribWSum
          (axisContribs c5rec [("Q14", 0.50), ("Q15", 0.30), ("Q23", 0.20)]) /
        contribTW (axisContribs c5rec [("Q14", 0.50), ("Q15", 0.30), ("Q23", 0.20)]))) : ℚ)
        / 4) := by
  have hW : alookup AXIS_WEIGHTS "Social Pressure"
      = some [("Q14", 0.50), ("Q15", 0.30), ("Q23", 0.20)] := rfl
  have hacc : axisAccum c5rec [("Q14", (0.50 : ℚ)), ("Q15", 0.30), ("Q23", 0.20)]
      = (9/16, 1/2) := by
    norm_num +decide [axisAccum, axisStep, c5rec, mapAnswerToScale]
  have h3 : (axisAccum c5rec [("Q14", (0.50 : ℚ)), ("Q15", 0.30), ("Q23", 0.20)]).2
      = contribTW (axisContribs c5rec [("Q14", 0.50), ("Q15", 0.30), ("Q23", 0.20)]) := by
    rw [axisAccum_eq]
  have ht : contribTW (axisContribs c5rec [("Q14", 0.50), ("Q15", 0.30), ("Q23", 0.20)])
      ≠ 0 := by
    rw [← h3, hacc]
    norm_num
  exact ⟨hW, ht, c5_axis_rounding c5rec "Social Pressure" _ hW ht⟩

/-- C7: for keys with an assigned scale table and non-numeric answers, the
mapper tries exact table lookup, then substring containment (either
direction, first table entry wins), then float parsing gated to `[1,5]`;
and `map_answer_to_scale('q11','yes, sometimes') = 4.0`,
`map_answer_to_scale('q11','4') = 4.0`. -/
theorem c7_scale_lookup_order :
    (∀ (qk : String) (scale : List (String × ℚ)) (s : String),
        scaleFor qk = some scale →
          mapAnswerToScale qk (Val.vstr s) =
            ((exactScale scale (normStr s)).orElse
              (fun _ => looseScale scale (normStr s))).orElse
              (fun _ => floatIn15 (normStr s))) ∧
    mapAnswerToScale "q11" (Val.vstr "yes, sometimes") = some 4 ∧
    mapAnswerToScale "q11" (Val.vstr "4") = some 4 := by
  refine ⟨?_, by decide, by decide⟩
  intro qk scale s hs
  unfold mapAnswerToScale
  simp only [normText]
  rw [hs]
  simp only
  cases he : exactScale scale (normStr s) with
  | some v => simp [Option.orElse]
  | none =>
    cases hl : looseScale scale (normStr s) with
    | some v => simp [Option.orElse]
    | none => simp [Option.orElse]

theorem c7_scale_lookup_order_witness :
    scaleFor "q11" = some PAY_MORE_SCALE ∧
    mapAnswerToScale "q11" (Val.vstr "yes, sometimes") =
      ((exactScale PAY_MORE_SCALE (normStr "yes, sometimes")).orElse
        (fun _ => looseScale PAY_MORE_SCALE (normStr "yes, sometimes"))).orElse
        (fun _ => floatIn15 (normStr "yes, sometimes")) := by
  have hs : scaleFor "q11" = some PAY_MORE_SCALE := rfl
  exact ⟨hs, c7_scale_lookup_order.1 "q11" PAY_MORE_SCALE "yes, sometimes" hs⟩

/-- C8: `is_taam_dataset` is true iff at least 8 of the 10 core canonical
question keys occur among the lowercased column names; 8 present gives true,
7 present gives false. -/
theorem c8_taam_detection :
    (∀ cols : List String,
        isTaamDataset cols = true ↔
          MIN_TAAM_QUESTIONS ≤
            (CORE_TAAM_QUESTIONS.filter
              (fun q => decide (∃ c ∈ cols, lowerStr c = q))).length) ∧
    isTaamDataset ["Q8", "q9", "q10", "q11", "q12", "q13", "q14", "q16"] = true ∧
    isTaamDataset ["Q8", "q9", "q10", "q11", "q12", "q13", "q14"] = false := by
  refine ⟨?_, by decide, by decide⟩
  intro cols
  unfold isTaamDataset
  simp only [decide_eq_true_eq]
  have hfe : CORE_TAAM_QUESTIONS.filter (fun q => (cols.map lowerStr).contains q)
      = CORE_TAAM_QUESTIONS.filter (fun q => decide (∃ c ∈ cols, lowerStr c = q)) := by
    apply List.filter_congr
    intro q _
    rw [Bool.eq_iff_iff]
    simp [List.elem_iff, List.mem_map]
  rw [hfe]

/-! ## Claims C1, C2: anchor priority and the Unknown fallback -/

theorem alookup_isSome_of_mem {β : Type} {l : List (String × β)} {p : String × β}
    (hp : p ∈ l) : (alookup l p.1).isSome := by
  induction l with
  | nil => simp at hp
  | cons q t ih =>
    by_cases hk : q.1 = p.1
    · simp [alookup, hk]
    · rcases List.mem_cons.mp hp with rfl | hp'
      · exact absurd rfl hk
      · simpa [alookup, hk] using ih hp'

theorem q20Step1_mem {s c : String} (h : q20Step1 s = some c) :
    (alookup PERSONAS c).isSome := by
  unfold q20Step1 at h
  cases hl : s.toList with
  | nil => rw [hl] at h; simp at h
  | cons a t =>
    cases t with
    | nil =>
      rw [hl] at h
      simp only at h
      split_ifs at h with h1 h2
      obtain rfl := Option.some_injective _ h
      exact h2
    | cons b t2 => rw [hl] at h; simp at h

theorem q20Step2_mem {s c : String} (h : q20Step2 s = some c) :
    (alookup PERSONAS c).isSome := by
  unfold q20Step2 at h
  cases hg : firstParenGroup s.toList with
  | none => rw [hg] at h; simp at h
  | some g =>
    rw [hg] at h
    simp only at h
    unfold codeByPersonaName at h
    cases hf : PERSONAS.find?
        (fun p => normStr p.2.1 = normStr (trimStr (String.mk g))) with
    | none => rw [hf] at h; simp at h
    | some p =>
      rw [hf] at h
      obtain rfl : p.1 = c := by simpa using h
      exact alookup_isSome_of_mem (List.mem_of_find?_eq_some hf)

theorem q20Step3_mem {s c : String} (h : q20Step3 s = some c) :
    (alookup PERSONAS c).isSome := by
  unfold q20Step3 at h
  cases hf : PERSONAS.find? (fun p => substrOf (normStr p.2.1) s) with
  | none => rw [hf] at h; simp at h
  | some p =>
    rw [hf] at h
    obtain rfl : p.1 = c := by simpa using h
    exact alookup_isSome_of_mem (List.mem_of_find?_eq_some hf)

theorem q20Step4_mem {s c : String} (h : q20Step4 s = some c) :
    (alookup PERSONAS c).isSome := by
  unfold q20Step4 at h
  cases hf : findStandaloneLetter none s.toList with
  | none => rw [hf] at h; simp at h
  | some a =>
    rw [hf] at h
    simp only at h
    split_ifs at h with h1
    obtain rfl := Option.some_injective _ h
    exact h1

/-- Every code produced by `_q20_to_code` is a key of the prototype table. -/
theorem q20ToCode_mem {v : Val} {c : String} (h : q20ToCode v = some c) :
    (alookup PERSONAS c).isSome := by
  have hsteps : ∀ s : String,
      (match q20Step1 s with
        | some c' => some c'
        | none =>
          match q20Step2 s with
          | some c' => some c'
          | none =>
            match q20Step3 s with
            | some c' => some c'
            | none => q20Step4 s) = some c →
      (alookup PERSONAS c).isSome := by
    intro s hs
    cases h1 : q20Step1 s with
    | some c' =>
      rw [h1] at hs
      obtain rfl : c' = c := by simpa using hs
      exact q20Step1_mem h1
    | none =>
      rw [h1] at hs
      simp only at hs
      cases h2 : q20Step2 s with
      | some c' =>
        rw [h2] at hs
        obtain rfl : c' = c := by simpa using hs
        exact q20Step2_mem h2
      | none =>
        rw [h2] at hs
        simp only at hs
        cases h3 : q20Step3 s with
        | some c' =>
          rw [h3] at hs
          obtain rfl : c' = c := by simpa using hs
          exact q20Step3_mem h3
        | none =>
          rw [h3] at hs
          simp only at hs
          exact q20Step4_mem hs
  cases v with
  | vnone => simp [q20ToCode] at h
  | vnum q => exact hsteps _ h
  | vstr s => exact hsteps _ h

/-- All persona prototype vectors have exactly 6 entries. -/
theorem personas_vec_len : ∀ p ∈ PERSONAS, p.2.2.length = 6 := by decide

/-- C1: a record whose q20 value is present, truthy, and resolvable to a
persona code always classifies by the anchor: the code and display name come
from the prototype table, the axis-score mapping is exactly the canonical
prototype vector zipped with the six axes (all six present), and the anchor
flag is true — regardless of every other key in the record. -/
theorem c1_anchor_priority (r : Record) (v : Val) (c : String)
    (hq : r "q20" = some v) (ht : pyTruthy v = true) (hc : q20ToCode v = some c) :
    ∃ nm : String, ∃ vec : List ℚ,
      alookup PERSONAS c = some (nm, vec) ∧
      determinePersona r = (c, nm, AXES.zip vec, true) ∧
      (AXES.zip vec).map Prod.fst = AXES := by
  have hsome : (alookup PERSONAS c).isSome := q20ToCode_mem hc
  obtain ⟨⟨nm, vec⟩, hl⟩ := Option.isSome_iff_exists.mp hsome
  have ha : anchorCode r = some c := by
    unfold anchorCode
    rw [hq]
    simp only [ht, if_true]
    exact hc
  refine ⟨nm, vec, hl, ?_, ?_⟩
  · unfold determinePersona
    rw [ha]
    simp [personaName, protoAxisMap, personaVec, hl]
  · have hmem := alookup_mem hl
    have hlen : vec.length = 6 := personas_vec_len (c, nm, vec) hmem
    apply List.map_fst_zip
    rw [hlen]
    decide

def c1rec : Record := fun k => if k = "q20" then some (Val.vstr "A") else none

theorem c1_anchor_priority_witness :
    c1rec "q20" = some (Val.vstr "A") ∧ pyTruthy (Val.vstr "A") = true ∧
    q20ToCode (Val.vstr "A") = some "A" ∧
    ∃ nm : String, ∃ vec : List ℚ,
      alookup PERSONAS "A" = some (nm, vec) ∧
      determinePersona c1rec = ("A", nm, AXES.zip vec, true) ∧
      (AXES.zip vec).map Prod.fst = AXES := by
  have h1 : c1rec "q20" = some (Val.vstr "A") := rfl
  have h2 : pyTruthy (Val.vstr "A") = true := by decide
  have h3 : q20ToCode (Val.vstr "A") = some "A" := by decide
  exact ⟨h1, h2, h3, c1_anchor_priority c1rec _ _ h1 h2 h3⟩

/-- C2: with no resolvable q20 anchor and fewer than 4 axis scores,
`determine_persona` returns the empty code, the name "Unknown", the partial
axis-score mapping that was computed, and anchor flag false (a total
function — no error is raised). -/
theorem c2_unknown_on_insufficient (r : Record)
    (ha : anchorCode r = none) (hlen : (computeAllAxes r).length < 4) :
    determinePersona r = ("", "Unknown", computeAllAxes r, false) := by
  unfold determinePersona
  rw [ha]
  simp only
  rw [if_pos hlen]

def c2rec : Record := fun _ => none

theorem c2_unknown_on_insufficient_witness :
    anchorCode c2rec = none ∧ (computeAllAxes c2rec).length < 4 ∧
      determinePersona c2rec = ("", "Unknown", computeAllAxes c2rec, false) := by
  have h1 : anchorCode c2rec = none := rfl
  have h2 : (computeAllAxes c2rec).length < 4 := by decide
  exact ⟨h1, h2, c2_unknown_on_insufficient c2rec h1 h2⟩

/-! ## Dot products and the Cauchy–Schwarz inequality over `ℚ` lists -/

theorem dotQ_nil_right (v : List ℚ) : dotQ v [] = 0 := by cases v <;> rfl

theorem dotQ_cons (a : ℚ) (v : List ℚ) (b : ℚ) (w : List ℚ) :
    dotQ (a :: v) (b :: w) = a * b + dotQ v w := by
  simp [dotQ]

theorem dotQ_self_nonneg (v : List ℚ) : 0 ≤ dotQ v v := by
  induction v with
  | nil => simp [dotQ]
  | cons a t ih =>
    rw [dotQ_cons]
    nlinarith [sq_nonneg a]

theorem dotQ_nonneg : ∀ (v w : List ℚ), (∀ x ∈ v, 0 ≤ x) → (∀ x ∈ w, 0 ≤ x) →
    0 ≤ dotQ v w := by
  intro v
  induction v with
  | nil => intro w _ _; simp [dotQ]
  | cons a t ih =>
    intro w hv hw
    cases w with
    | nil => simp [dotQ_nil_right]
    | cons b u =>
      rw [dotQ_cons]
      have ha : 0 ≤ a := hv a (List.mem_cons_self a t)
      have hb : 0 ≤ b := hw b (List.mem_cons_self b u)
      have ht := ih u (fun x hx => hv x (List.mem_cons_of_mem a hx))
        (fun x hx => hw x (List.mem_cons_of_mem b hx))
      nlinarith

/-- Cauchy–Schwarz for the truncating list dot product. -/
theorem dotQ_sq_le : ∀ (v w : List ℚ), (dotQ v w) ^ 2 ≤ dotQ v v * dotQ w w := by
  intro v
  induction v with
  | nil => intro w; simp [dotQ]
  | cons a t ih =>
    intro w
    cases w with
    | nil => simp [dotQ_nil_right]
    | cons b u =>
      have IH := ih u
      have hV := dotQ_self_nonneg t
      have hW := dotQ_self_nonneg u
      rw [dotQ_cons, dotQ_cons, dotQ_cons]
      rcases eq_or_lt_of_le hV with hV0 | hVpos
      · have hD2 : dotQ t u ^ 2 ≤ 0 := by nlinarith
        have hD : dotQ t u = 0 := by
          have := le_antisymm hD2 (sq_nonneg _)
          exact pow_eq_zero_iff (by norm_num) |>.mp this
        rw [hD, ← hV0]
        nlinarith [sq_nonneg a, sq_nonneg b, mul_nonneg (sq_nonneg a) hW]
      · nlinarith [IH, sq_nonneg (a * dotQ t u - b * dotQ t t),
          mul_nonneg (add_nonneg (sq_nonneg a) hV) (sub_nonneg.mpr IH), hVpos, hW]

/-! ## Cosine similarity bounds -/

theorem cosineSimilarity_le_one (v w : List ℚ) : cosineSimilarity v w ≤ 1 := by
  unfold cosineSimilarity
  split_ifs with h
  · norm_num
  · push_neg at h
    obtain ⟨hv, hw⟩ := h
    have hvpos : 0 < (dotQ v v : ℝ) := by
      have := dotQ_self_nonneg v
      have : (0 : ℝ) ≤ (dotQ v v : ℚ) := by exact_mod_cast this
      rcases lt_or_eq_of_le this with h' | h'
      · exact h'
      · exact absurd (by exact_mod_cast h'.symm) hv
    have hwpos : 0 < (dotQ w w : ℝ) := by
      have := dotQ_self_nonneg w
      have : (0 : ℝ) ≤ (dotQ w w : ℚ) := by exact_mod_cast this
      rcases lt_or_eq_of_le this with h' | h'
      · exact h'
      · exact absurd (by exact_mod_cast h'.symm) hw
    rw [div_le_one (by positivity)]
    have key : ((dotQ v w : ℚ) : ℝ) ≤ Real.sqrt ((dotQ v v : ℚ) * (dotQ w w : ℚ)) := by
      calc ((dotQ v w : ℚ) : ℝ) ≤ |((dotQ v w : ℚ) : ℝ)| := le_abs_self _
        _ = Real.sqrt (((dotQ v w : ℚ) : ℝ) ^ 2) := (Real.sqrt_sq_eq_abs _).symm
        _ ≤ Real.sqrt ((dotQ v v : ℚ) * (dotQ w w : ℚ)) := by
            apply Real.sqrt_le_sqrt
            exact_mod_cast dotQ_sq_le v w
    calc ((dotQ v w : ℚ) : ℝ)
        ≤ Real.sqrt ((dotQ v v : ℚ) * (dotQ w w : ℚ)) := key
      _ = Real.sqrt (dotQ v v : ℚ) * Real.sqrt (dotQ w w : ℚ) := by
          rw [← Real.sqrt_mul (by positivity)]

theorem cosineSimilarity_nonneg {v w : List ℚ} (hv : ∀ x ∈ v, 0 ≤ x)
    (hw : ∀ x ∈ w, 0 ≤ x) : 0 ≤ cosineSimilarity v w := by
  unfold cosineSimilarity
  split_ifs with h
  · exact le_refl 0
  · apply div_nonneg
    · exact_mod_cast dotQ_nonneg v w hv hw
    · positivity

theorem cosineSimilarity_self {v : List ℚ} (h : dotQ v v ≠ 0) :
    cosineSimilarity v v = 1 := by
  unfold cosineSimilarity
  rw [if_neg (by simp [h])]
  rw [← Real.sqrt_mul (by exact_mod_cast dotQ_self_nonneg v)]
  rw [Real.sqrt_mul_self (by exact_mod_cast dotQ_self_nonneg v)]
  exact div_self (by exact_mod_cast h)

/-- Comparison of two similarities against the same user vector, reduced to a
rational inequality on squared dot products. -/
theorem cosineSimilarity_le_of_sq {u p1 p2 : List ℚ}
    (hd1 : 0 ≤ dotQ u p1) (hd2 : 0 ≤ dotQ u p2)
    (hu : dotQ u u ≠ 0) (hp1 : dotQ p1 p1 ≠ 0) (hp2 : dotQ p2 p2 ≠ 0)
    (hcs : (dotQ u p1) ^ 2 * dotQ p2 p2 ≤ (dotQ u p2) ^ 2 * dotQ p1 p1) :
    cosineSimilarity u p1 ≤ cosineSimilarity u p2 := by
  unfold cosineSimilarity
  rw [if_neg (by simp [hu, hp1]), if_neg (by simp [hu, hp2])]
  have hunn : (0 : ℝ) ≤ (dotQ u u : ℚ) := by exact_mod_cast dotQ_self_nonneg u
  have h1nn : (0 : ℝ) ≤ (dotQ p1 p1 : ℚ) := by exact_mod_cast dotQ_self_nonneg p1
  have h2nn : (0 : ℝ) ≤ (dotQ p2 p2 : ℚ) := by exact_mod_cast dotQ_self_nonneg p2
  have hupos : (0 : ℝ) < Real.sqrt (dotQ u u : ℚ) :=
    Real.sqrt_pos.mpr (lt_of_le_of_ne hunn (by exact_mod_cast Ne.symm hu))
  have h1pos : (0 : ℝ) < Real.sqrt (dotQ p1 p1 : ℚ) :=
    Real.sqrt_pos.mpr (lt_of_le_of_ne h1nn (by exact_mod_cast Ne.symm hp1))
  have h2pos : (0 : ℝ) < Real.sqrt (dotQ p2 p2 : ℚ) :=
    Real.sqrt_pos.mpr (lt_of_le_of_ne h2nn (by exact_mod_cast Ne.symm hp2))
  rw [div_le_div_iff (by positivity) (by positivity)]
  have e1 : ((dotQ u p1 : ℚ) : ℝ) * Real.sqrt (dotQ p2 p2 : ℚ)
      = Real.sqrt (((dotQ u p1 : ℚ) : ℝ) ^ 2 * (dotQ p2 p2 : ℚ)) := by
    rw [Real.sqrt_mul (sq_nonneg _), Real.sqrt_sq (by exact_mod_cast hd1)]
  have e2 : ((dotQ u p2 : ℚ) : ℝ) * Real.sqrt (dotQ p1 p1 : ℚ)
      = Real.sqrt (((dotQ u p2 : ℚ) : ℝ) ^ 2 * (dotQ p1 p1 : ℚ)) := by
    rw [Real.sqrt_mul (sq_nonneg _), Real.sqrt_sq (by exact_mod_cast hd2)]
  have key : ((dotQ u p1 : ℚ) : ℝ) * Real.sqrt (dotQ p2 p2 : ℚ)
      ≤ ((dotQ u p2 : ℚ) : ℝ) * Real.sqrt (dotQ p1 p1 : ℚ) := by
    rw [e1, e2]
    apply Real.sqrt_le_sqrt
    exact_mod_cast hcs
  nlinarith [key, hupos.le, mul_le_mul_of_nonneg_left key hupos.le]

/-! ## The best-candidate fold -/

theorem pickBest_cons {α : Type} (h : α × ℝ) (t : List (α × ℝ)) (b : α × ℝ) :
    pickBest (h :: t) b = pickBest t (if b.2 < h.2 then h else b) := rfl

/-- Characterization of the strict-improvement fold: the result dominates
the initial value and every candidate, and is either the initial value or
the first list element that strictly exceeds everything before it. -/
theorem pickBest_spec {α : Type} (l : List (α × ℝ)) :
    ∀ b : α × ℝ,
      (∀ x ∈ l, x.2 ≤ (pickBest l b).2) ∧ b.2 ≤ (pickBest l b).2 ∧
        (pickBest l b = b ∨ ∃ l1 l2, l = l1 ++ pickBest l b :: l2 ∧
          (∀ x ∈ l1, x.2 < (pickBest l b).2) ∧ b.2 < (pickBest l b).2) := by
  induction l with
  | nil =>
    intro b
    refine ⟨by simp, le_rfl, Or.inl rfl⟩
  | cons h t ih =>
    intro b
    rw [pickBest_cons]
    by_cases hc : b.2 < h.2
    · rw [if_pos hc]
      obtain ⟨A, B, C⟩ := ih h
      set r := pickBest t h with hr
      refine ⟨?_, le_of_lt (lt_of_lt_of_le hc B), ?_⟩
      · intro x hx
        rcases List.mem_cons.mp hx with rfl | hx'
        · exact B
        · exact A x hx'
      · rcases C with hC | ⟨l1, l2, hsplit, hpre, hgt⟩
        · right
          refine ⟨[], t, by simp [hC], by simp, by rw [hC]; exact hc⟩
        · right
          refine ⟨h :: l1, l2, by rw [hsplit]; rfl, ?_, lt_trans hc hgt⟩
          intro x hx
          rcases List.mem_cons.mp hx with rfl | hx'
          · exact hgt
          · exact hpre x hx'
    · rw [if_neg hc]
      obtain ⟨A, B, C⟩ := ih b
      set r := pickBest t b with hr
      push_neg at hc
      refine ⟨?_, B, ?_⟩
      · intro x hx
        rcases List.mem_cons.mp hx with rfl | hx'
        · exact le_trans hc B
        · exact A x hx'
      · rcases C with hC | ⟨l1, l2, hsplit, hpre, hgt⟩
        · exact Or.inl hC
        · right
          refine ⟨h :: l1, l2, by rw [hsplit]; rfl, ?_, hgt⟩
          intro x hx
          rcases List.mem_cons.mp hx with rfl | hx'
          · exact lt_of_le_of_lt hc hgt
          · exact hpre x hx'

/-! ## Indexing helpers -/

theorem getD_append_length {α : Type} (r : α) (l2 : List α) (d : α) :
    ∀ l1 : List α, (l1 ++ r :: l2).getD l1.length d = r := by
  intro l1
  induction l1 with
  | nil => simp
  | cons a t ih => simpa using ih

theorem getD_append_lt {α : Type} (rest : List α) (d : α) :
    ∀ (l1 : List α) (k : ℕ), k < l1.length → (l1 ++ rest).getD k d = l1.getD k d := by
  intro l1
  induction l1 with
  | nil => intro k hk; simp at hk
  | cons a t ih =>
    intro k hk
    cases k with
    | zero => simp
    | succ k' =>
      simp only [List.cons_append, List.getD_cons_succ]
      exact ih k' (by simpa using hk)

theorem getD_mem {α : Type} (d : α) :
    ∀ (l : List α) (k : ℕ), k < l.length → l.getD k d ∈ l := by
  intro l
  induction l with
  | nil => intro k hk; simp at hk
  | cons a t ih =>
    intro k hk
    cases k with
    | zero => simp
    | succ k' =>
      simp only [List.getD_cons_succ]
      exact List.mem_cons_of_mem a (ih k' (by simpa using hk))

theorem getD_map_rel {α β γ : Type} (f : α → β) (g : α → γ) (u : β → γ)
    (hcomp : ∀ a, u (f a) = g a) :
    ∀ (l : List α) (j : ℕ) (db : β) (dc : γ), j < l.length →
      u ((l.map f).getD j db) = (l.map g).getD j dc := by
  intro l
  induction l with
  | nil => intro j db dc hj; simp at hj
  | cons a t ih =>
    intro j db dc hj
    cases j with
    | zero => simpa using hcomp a
    | succ j' =>
      simp only [List.map_cons, List.getD_cons_succ]
      exact ih j' db dc (by simpa using hj)

/-! ## Classification helpers -/

/-- All persona prototype entries are nonnegative. -/
theorem personas_nonneg : ∀ p ∈ PERSONAS, ∀ x ∈ p.2.2, 0 ≤ x := by
  intro p hp
  fin_cases hp <;> intro x hx <;> fin_cases hx <;> norm_num

theorem computeAllAxes_mem {r : Record} {x : String × ℚ}
    (hx : x ∈ computeAllAxes r) :
    x.1 ∈ AXES ∧ computeAxisScore r x.1 = some x.2 := by
  unfold computeAllAxes at hx
  obtain ⟨ax, hax, hmap⟩ := List.mem_filterMap.mp hx
  cases hc : computeAxisScore r ax with
  | none => rw [hc] at hmap; simp at hmap
  | some v =>
    rw [hc] at hmap
    obtain rfl : (ax, v) = x := by simpa using hmap
    exact ⟨hax, hc⟩

theorem computeAllAxes_nonneg (r : Record) : ∀ p ∈ computeAllAxes r, 0 ≤ p.2 := by
  intro p hp
  obtain ⟨-, hc⟩ := computeAllAxes_mem hp
  have h1 := (computeAxisScore_props hc).1.1
  linarith

theorem userVec_nonneg {sc : List (String × ℚ)} (h : ∀ p ∈ sc, 0 ≤ p.2) :
    ∀ x ∈ userVec sc, 0 ≤ x := by
  intro x hx
  unfold userVec at hx
  obtain ⟨ax, -, rfl⟩ := List.mem_map.mp hx
  unfold lookupD
  cases hl : alookup sc ax with
  | none => simp
  | some v => simpa using h (ax, v) (alookup_mem hl)

theorem simPairs_first (sc : List (String × ℚ)) :
    ∃ rest, simPairs sc = (("A", "Seamless Shoppers"),
      cosineSimilarity (userVec sc) [2.5, 3.25, 3.25, 2.5, 2.5, 5.0]) :: rest :=
  ⟨_, rfl⟩

/-- On any nonnegative score mapping, the classifier lands on a genuine
prototype entry, whose similarity it reports. -/
theorem findClosest_mem {sc : List (String × ℚ)} (hnn : ∀ p ∈ sc, 0 ≤ p.2) :
    ∃ p ∈ PERSONAS, findClosestPersona sc =
      (p.1, p.2.1, cosineSimilarity (userVec sc) p.2.2) := by
  obtain ⟨A, B, C⟩ := pickBest_spec (simPairs sc) (("", ""), -1)
  obtain ⟨rest, hhead⟩ := simPairs_first sc
  have hsimA : (0 : ℝ) ≤
      cosineSimilarity (userVec sc) [2.5, 3.25, 3.25, 2.5, 2.5, 5.0] :=
    cosineSimilarity_nonneg (userVec_nonneg hnn)
      (by intro x hx; fin_cases hx <;> norm_num)
  have hmemA : (("A", "Seamless Shoppers"),
      cosineSimilarity (userVec sc) [2.5, 3.25, 3.25, 2.5, 2.5, 5.0]) ∈ simPairs sc := by
    rw [hhead]
    exact List.mem_cons_self _ _
  set r := pickBest (simPairs sc) (("", ""), -1) with hrdef
  rcases C with hC | ⟨l1, l2, hsplit, -, -⟩
  · exfalso
    have hle := A _ hmemA
    rw [hC] at hle
    simp only at hle
    linarith
  · have hrmem : r ∈ simPairs sc := by
      rw [hsplit]
      exact List.mem_append_right _ (List.mem_cons_self _ _)
    unfold simPairs at hrmem
    obtain ⟨p, hp, hpe⟩ := List.mem_map.mp hrmem
    refine ⟨p, hp, ?_⟩
    unfold findClosestPersona
    simp only
    rw [← hrdef, ← hpe]

theorem anchorCode_mem {r : Record} {c : String} (h : anchorCode r = some c) :
    (alookup PERSONAS c).isSome := by
  unfold anchorCode at h
  cases hq : r "q20" with
  | none => rw [hq] at h; simp at h
  | some v =>
    rw [hq] at h
    simp only at h
    split_ifs at h with ht
    exact q20ToCode_mem h

/-- Every classification result is either a genuine persona (code, name)
pair or exactly `("", "Unknown")`. -/
theorem determinePersona_cases (r : Record) :
    (∃ p ∈ PERSONAS, (determinePersona r).1 = p.1 ∧
      (determinePersona r).2.1 = p.2.1) ∨
    ((determinePersona r).1 = "" ∧ (determinePersona r).2.1 = "Unknown") := by
  unfold determinePersona
  cases ha : anchorCode r with
  | some c =>
    simp only
    obtain ⟨⟨nm, vec⟩, hl⟩ := Option.isSome_iff_exists.mp (anchorCode_mem ha)
    left
    exact ⟨(c, nm, vec), alookup_mem hl, rfl, by simp [personaName, hl]⟩
  | none =>
    simp only
    by_cases hlen : (computeAllAxes r).length < 4
    · rw [if_pos hlen]
      right
      exact ⟨rfl, rfl⟩
    · rw [if_neg hlen]
      obtain ⟨p, hp, heq⟩ := findClosest_mem (computeAllAxes_nonneg r)
      left
      exact ⟨p, hp, by rw [heq], by rw [heq]⟩

/-- C10: on the computed path with at least 4 axis scores present,
`determine_persona` always lands on a genuine prototype (code in A..J with
its matching name) — the "Unknown" outcome is unreachable there; and in
general every classification result is either a genuine (code, name) pair
from the table or exactly `("", "Unknown")`. -/
theorem c10_computed_path_validity :
    (∀ r : Record, anchorCode r = none → 4 ≤ (computeAllAxes r).length →
        ∃ p ∈ PERSONAS, determinePersona r = (p.1, p.2.1, computeAllAxes r, false)) ∧
    (∀ r : Record,
        (∃ p ∈ PERSONAS, (determinePersona r).1 = p.1 ∧
          (determinePersona r).2.1 = p.2.1) ∨
        ((determinePersona r).1 = "" ∧ (determinePersona r).2.1 = "Unknown")) := by
  constructor
  · intro r ha hlen
    obtain ⟨p, hp, heq⟩ := findClosest_mem (computeAllAxes_nonneg r)
    refine ⟨p, hp, ?_⟩
    unfold determinePersona
    rw [ha]
    simp only
    rw [if_neg (by omega), heq]
  · exact determinePersona_cases

/-! ## Claim C6: the cosine classifier -/

/-- C6: on the exact axis-score vector `[2.5, 3.25, 3.25, 2.5, 2.5, 5.0]`
(fixed axis order) the classifier returns persona code "A",
"Seamless Shoppers", with similarity exactly 1; and in general, for
nonnegative score mappings the selected candidate is the first one (in the
fixed A..J iteration order) attaining the greatest cosine similarity,
because a candidate replaces the current best only on strict improvement. -/
theorem c6_cosine_classifier :
    findClosestPersona (AXES.zip [2.5, 3.25, 3.25, 2.5, 2.5, 5.0]) =
      ("A", "Seamless Shoppers", (1 : ℝ)) ∧
    (∀ sc : List (String × ℚ), (∀ p ∈ sc, 0 ≤ p.2) →
      ∃ j : ℕ, j < (simPairs sc).length ∧
        findClosestPersona sc =
          (((simPairs sc).getD j (("", ""), -1)).1.1,
           ((simPairs sc).getD j (("", ""), -1)).1.2,
           ((simPairs sc).getD j (("", ""), -1)).2) ∧
        ((simPairs sc).getD j (("", ""), -1)).1.1 = PERSONA_CODES_ORDER.getD j "" ∧
        (∀ k, k < (simPairs sc).length →
          ((simPairs sc).getD k (("", ""), -1)).2 ≤
            ((simPairs sc).getD j (("", ""), -1)).2) ∧
        (∀ k, k < j →
          ((simPairs sc).getD k (("", ""), -1)).2 <
            ((simPairs sc).getD j (("", ""), -1)).2)) := by
  constructor
  · -- concrete part
    obtain ⟨A, B, C⟩ := pickBest_spec
      (simPairs (AXES.zip [2.5, 3.25, 3.25, 2.5, 2.5, 5.0])) (("", ""), -1)
    set r := pickBest
      (simPairs (AXES.zip [2.5, 3.25, 3.25, 2.5, 2.5, 5.0])) (("", ""), -1) with hrdef
    obtain ⟨rest, hhead⟩ := simPairs_first (AXES.zip [2.5, 3.25, 3.25, 2.5, 2.5, 5.0])
    have huv : userVec (AXES.zip [2.5, 3.25, 3.25, 2.5, 2.5, 5.0])
        = [2.5, 3.25, 3.25, 2.5, 2.5, 5.0] := rfl
    have hsimA : cosineSimilarity
        (userVec (AXES.zip [2.5, 3.25, 3.25, 2.5, 2.5, 5.0]))
        [2.5, 3.25, 3.25, 2.5, 2.5, 5.0] = 1 := by
      rw [huv]
      apply cosineSimilarity_self
      norm_num [dotQ, List.zipWith]
    have hmemA : (("A", "Seamless Shoppers"), cosineSimilarity
        (userVec (AXES.zip [2.5, 3.25, 3.25, 2.5, 2.5, 5.0]))
        [2.5, 3.25, 3.25, 2.5, 2.5, 5.0])
        ∈ simPairs (AXES.zip [2.5, 3.25, 3.25, 2.5, 2.5, 5.0]) := by
      rw [hhead]
      exact List.mem_cons_self _ _
    have hle1 : ∀ x ∈ simPairs (AXES.zip [2.5, 3.25, 3.25, 2.5, 2.5, 5.0]),
        x.2 ≤ 1 := by
      intro x hx
      unfold simPairs at hx
      obtain ⟨p, -, rfl⟩ := List.mem_map.mp hx
      exact cosineSimilarity_le_one _ _
    rcases C with hC | ⟨l1, l2, hsplit, hpre, -⟩
    · exfalso
      have hle := A _ hmemA
      rw [hC] at hle
      simp only at hle
      rw [hsimA] at hle
      linarith
    · have hr2le : r.2 ≤ 1 := by
        apply hle1
        rw [hsplit]
        exact List.mem_append_right _ (List.mem_cons_self _ _)
      have hr2ge : (1 : ℝ) ≤ r.2 := by
        have := A _ hmemA
        simp only at this
        rw [hsimA] at this
        exact this
      have hr2 : r.2 = 1 := le_antisymm hr2le hr2ge
      cases l1 with
      | cons x xs =>
        exfalso
        have hx : x = (("A", "Seamless Shoppers"), cosineSimilarity
            (userVec (AXES.zip [2.5, 3.25, 3.25, 2.5, 2.5, 5.0]))
            [2.5, 3.25, 3.25, 2.5, 2.5, 5.0]) := by
          have heq := hhead.symm.trans hsplit
          simp only [List.cons_append] at heq
          exact (List.cons.inj heq).1.symm
        have := hpre x (List.mem_cons_self x xs)
        rw [hx] at this
        simp only at this
        rw [hsimA, hr2] at this
        linarith
      | nil =>
        have heq := hhead.symm.trans hsplit
        simp only [List.nil_append] at heq
        have hre := (List.cons.inj heq).1
        unfold findClosestPersona
        simp only
        rw [← hrdef, ← hre]
        simp only
        rw [hsimA]
  · -- general part
    intro sc hnn
    obtain ⟨A, B, C⟩ := pickBest_spec (simPairs sc) (("", ""), -1)
    set r := pickBest (simPairs sc) (("", ""), -1) with hrdef
    obtain ⟨rest, hhead⟩ := simPairs_first sc
    have hsimA : (0 : ℝ) ≤
        cosineSimilarity (userVec sc) [2.5, 3.25, 3.25, 2.5, 2.5, 5.0] :=
      cosineSimilarity_nonneg (userVec_nonneg hnn)
        (by intro x hx; fin_cases hx <;> norm_num)
    have hmemA : (("A", "Seamless Shoppers"),
        cosineSimilarity (userVec sc) [2.5, 3.25, 3.25, 2.5, 2.5, 5.0])
        ∈ simPairs sc := by
      rw [hhead]
      exact List.mem_cons_self _ _
    rcases C with hC | ⟨l1, l2, hsplit, hpre, -⟩
    · exfalso
      have hle := A _ hmemA
      rw [hC] at hle
      simp only at hle
      linarith
    · have hlen : (simPairs sc).length = l1.length + (l2.length + 1) := by
        rw [hsplit]
        simp [List.length_append]
      have hjlt : l1.length < (simPairs sc).length := by omega
      have hj : (simPairs sc).getD l1.length (("", ""), -1) = r := by
        rw [hsplit]
        exact getD_append_length r l2 _ l1
      have hlenP : l1.length < PERSONAS.length := by
        have : (simPairs sc).length = PERSONAS.length := by
          unfold simPairs
          simp
        omega
      refine ⟨l1.length, hjlt, ?_, ?_, ?_, ?_⟩
      · rw [hj]
        unfold findClosestPersona
        simp only
      · have hcodes : PERSONA_CODES_ORDER = PERSONAS.map (fun p => p.1) := rfl
        rw [hcodes]
        exact getD_map_rel
          (fun p => ((p.1, p.2.1), cosineSimilarity (userVec sc) p.2.2))
          (fun p => p.1) (fun x => x.1.1) (fun a => rfl)
          PERSONAS l1.length ((("", ""), (-1 : ℝ)) : (String × String) × ℝ) "" hlenP
      · intro k hk
        rw [hj]
        exact A _ (getD_mem (("", ""), -1) (simPairs sc) k hk)
      · intro k hkj
        have hk' : (simPairs sc).getD k (("", ""), -1) = l1.getD k (("", ""), -1) := by
          rw [hsplit]
          exact getD_append_lt _ _ l1 k hkj
        rw [hj, hk']
        exact hpre _ (getD_mem (("", ""), -1) l1 k hkj)

theorem c6_cosine_classifier_witness :
    (∀ p ∈ AXES.zip ([2.5, 3.25, 3.25, 2.5, 2.5, 5.0] : List ℚ), 0 ≤ p.2) ∧
    (∃ j : ℕ,
      j < (simPairs (AXES.zip [2.5, 3.25, 3.25, 2.5, 2.5, 5.0])).length ∧
      findClosestPersona (AXES.zip [2.5, 3.25, 3.25, 2.5, 2.5, 5.0]) =
        (((simPairs (AXES.zip [2.5, 3.25, 3.25, 2.5, 2.5, 5.0])).getD j
            (("", ""), -1)).1.1,
         ((simPairs (AXES.zip [2.5, 3.25, 3.25, 2.5, 2.5, 5.0])).getD j
            (("", ""), -1)).1.2,
         ((simPairs (AXES.zip [2.5, 3.25, 3.25, 2.5, 2.5, 5.0])).getD j
            (("", ""), -1)).2) ∧
      ((simPairs (AXES.zip [2.5, 3.25, 3.25, 2.5, 2.5, 5.0])).getD j
          (("", ""), -1)).1.1 = PERSONA_CODES_ORDER.getD j "" ∧
      (∀ k, k < (simPairs (AXES.zip [2.5, 3.25, 3.25, 2.5, 2.5, 5.0])).length →
        ((simPairs (AXES.zip [2.5, 3.25, 3.25, 2.5, 2.5, 5.0])).getD k
            (("", ""), -1)).2 ≤
          ((simPairs (AXES.zip [2.5, 3.25, 3.25, 2.5, 2.5, 5.0])).getD j
            (("", ""), -1)).2) ∧
      (∀ k, k < j →
        ((simPairs (AXES.zip [2.5, 3.25, 3.25, 2.5, 2.5, 5.0])).getD k
            (("", ""), -1)).2 <
          ((simPairs (AXES.zip [2.5, 3.25, 3.25, 2.5, 2.5, 5.0])).getD j
            (("", ""), -1)).2)) := by
  have hnn : ∀ p ∈ AXES.zip ([2.5, 3.25, 3.25, 2.5, 2.5, 5.0] : List ℚ), 0 ≤ p.2 := by
    intro p hp
    fin_cases hp <;> norm_num
  exact ⟨hnn, c6_cosine_classifier.2 _ hnn⟩

def c10rec : Record := fun k =>
  if k = "q8" ∨ k = "q10" ∨ k = "q12" ∨ k = "q14" ∨ k = "q16" ∨ k = "q18"
  then some (Val.vnum 3) else none

theorem c10_computed_path_validity_witness :
    anchorCode c10rec = none ∧ 4 ≤ (computeAllAxes c10rec).length ∧
      ∃ p ∈ PERSONAS,
        determinePersona c10rec = (p.1, p.2.1, computeAllAxes c10rec, false) := by
  have hpr12 : pyRound (12 : ℚ) = 12 := by
    rw [pyRound_eval (f := 12) (by norm_num) (by norm_num)]
    norm_num
  have hsc : computeAllAxes c10rec =
      [("Price", (3 : ℚ)), ("Quality", 3), ("Ingredients", 3),
       ("Social Pressure", 3), ("Brand Image", 3), ("Convenience", 3)] := by
    norm_num +decide [computeAllAxes, AXES, computeAxisScore, alookup, AXIS_WEIGHTS,
      axisAccum, axisStep, c10rec, mapAnswerToScale, roundToQuarter, hpr12,
      List.filterMap_cons]
  have h1 : anchorCode c10rec = none := rfl
  have h2 : 4 ≤ (computeAllAxes c10rec).length := by
    rw [hsc]
    norm_num
  exact ⟨h1, h2, c10_computed_path_validity.1 c10rec h1 h2⟩

/-! ## Claim C3: the persona distribution -/

theorem validName_mem {r : Record}
    (h : validPersona (determinePersona r).2.1 = true) :
    (determinePersona r).2.1 ∈ PERSONAS.map (fun p => p.2.1) := by
  rcases determinePersona_cases r with ⟨p, hp, -, hn⟩ | ⟨-, hn⟩
  · rw [hn]
    exact List.mem_map_of_mem _ hp
  · rw [hn] at h
    simp [validPersona] at h

theorem classifiedNames_mem {records : List Record} :
    ∀ n ∈ classifiedNames records, n ∈ PERSONAS.map (fun p => p.2.1) := by
  intro n hn
  unfold classifiedNames at hn
  obtain ⟨r, -, hr⟩ := List.mem_filterMap.mp hn
  simp only at hr
  split_ifs at hr with hv
  obtain rfl := Option.some_injective _ hr
  exact validName_mem hv

theorem classifiedNames_length (records : List Record) :
    (classifiedNames records).length =
      (records.filter (fun r => validPersona (determinePersona r).2.1)).length := by
  induction records with
  | nil => rfl
  | cons r t ih =>
    unfold classifiedNames at ih ⊢
    simp only [List.filterMap_cons, List.filter_cons]
    cases hv : validPersona (determinePersona r).2.1 <;> simp [hv, ih]

theorem map_count_cons_sum (a : String) (t : List String) :
    ∀ names : List String,
      (names.map (fun n => (a :: t).count n)).sum
        = (names.map (fun n => t.count n)).sum + names.count a := by
  intro names
  induction names with
  | nil => simp
  | cons m ms ih =>
    simp only [List.map_cons, List.sum_cons]
    rw [ih]
    simp only [List.count_cons]
    by_cases h : a = m
    · subst h
      simp
      omega
    · simp [h, Ne.symm h]
      omega

/-- Summing, over a duplicate-free list of names, the multiplicities of each
name in a list drawn from those names recovers the list's length. -/
theorem count_partition (names : List String) (hnd : names.Nodup) :
    ∀ l : List String, (∀ x ∈ l, x ∈ names) →
      (names.map (fun n => l.count n)).sum = l.length := by
  intro l
  induction l with
  | nil => intro _; simp
  | cons a t ih =>
    intro h
    have ha : a ∈ names := h a (List.mem_cons_self a t)
    have ht : ∀ x ∈ t, x ∈ names := fun x hx => h x (List.mem_cons_of_mem a hx)
    rw [map_count_cons_sum a t names, ih ht, List.count_eq_one_of_mem hnd ha]
    simp

/-- C3: the persona distribution always has exactly 10 entries, one per code
in A..J order (zero-count personas included), the entry counts sum to the
number of rows with a valid (non-"Unknown") classification — which is also
the reported total — and each entry's percentage is count/total*100 rounded
to 2 decimals, or 0 when the total is 0. -/
theorem c3_distribution (records : List Record) :
    ((generateTaamPersonaDistribution records).1.length = 10) ∧
    ((generateTaamPersonaDistribution records).1.map (fun e => e.code)
        = PERSONA_CODES_ORDER) ∧
    (((generateTaamPersonaDistribution records).1.map (fun e => e.count)).sum
        = (records.filter (fun r => validPersona (determinePersona r).2.1)).length) ∧
    ((generateTaamPersonaDistribution records).2
        = (records.filter (fun r => validPersona (determinePersona r).2.1)).length) ∧
    (∀ e ∈ (generateTaamPersonaDistribution records).1,
        e.percent = if (generateTaamPersonaDistribution records).2 = 0 then 0
          else pyRound2 ((e.count : ℚ) /
            ((generateTaamPersonaDistribution records).2 : ℚ) * 100)) := by
  refine ⟨?_, ?_, ?_, ?_, ?_⟩
  · simp [generateTaamPersonaDistribution, PERSONA_CODES_ORDER]
  · rfl
  · unfold generateTaamPersonaDistribution
    simp only [List.map_map]
    have hcomp : ((fun e : DistEntry => e.count) ∘ (fun c =>
        ({ persona := personaName c, code := c,
           count := (classifiedNames records).count (personaName c),
           percent := if 0 < (classifiedNames records).length then
             pyRound2 (((classifiedNames records).count (personaName c) : ℚ) /
               ((classifiedNames records).length : ℚ) * 100) else 0 } : DistEntry)))
        = fun c => (classifiedNames records).count (personaName c) := rfl
    rw [hcomp]
    have hmapmap : PERSONA_CODES_ORDER.map
          (fun c => (classifiedNames records).count (personaName c))
        = (PERSONA_CODES_ORDER.map personaName).map
          (fun n => (classifiedNames records).count n) := by
      rw [List.map_map]
      rfl
    rw [hmapmap]
    have hnames : PERSONA_CODES_ORDER.map personaName
        = PERSONAS.map (fun p => p.2.1) := rfl
    rw [hnames]
    rw [count_partition (PERSONAS.map (fun p => p.2.1)) (by decide)
      (classifiedNames records) classifiedNames_mem]
    exact classifiedNames_length records
  · exact classifiedNames_length records
  · intro e he
    unfold generateTaamPersonaDistribution at he ⊢
    simp only at he ⊢
    obtain ⟨c, -, rfl⟩ := List.mem_map.mp he
    simp only
    rcases Nat.eq_zero_or_pos (classifiedNames records).length with h0 | hpos
    · rw [h0]
      simp
    · rw [if_pos hpos, if_neg (by omega)]

theorem c3_distribution_witness :
    ∃ e ∈ (generateTaamPersonaDistribution [c1rec]).1,
      e.percent = if (generateTaamPersonaDistribution [c1rec]).2 = 0 then 0
        else pyRound2 ((e.count : ℚ) /
          ((generateTaamPersonaDistribution [c1rec]).2 : ℚ) * 100) := by
  have h := c3_distribution [c1rec]
  have hlen : 0 < (generateTaamPersonaDistribution [c1rec]).1.length := by
    rw [h.1]
    norm_num
  have hmem := getD_mem ({ persona := "", code := "", count := 0, percent := 0 } :
    DistEntry) (generateTaamPersonaDistribution [c1rec]).1 0 hlen
  exact ⟨_, hmem, h.2.2.2.2 _ hmem⟩

/-! ## Claim C9: the observed heatmap -/

/-- The rows of the table contributing to persona name `n` in the observed
heatmap, as the claim describes them: valid persona, nonempty axis-score
mapping, classified under `n`. -/
noncomputable def heatContrib (records : List Record) (n : String) : List Record :=
  records.filter (fun r =>
    (validPersona (determinePersona r).2.1 && !(determinePersona r).2.2.1.isEmpty)
      && ((determinePersona r).2.1 == n))

theorem alookup_eq_none {β : Type} {g : List (String × β)} {n : String}
    (h : n ∉ g.map Prod.fst) : alookup g n = none := by
  induction g with
  | nil => rfl
  | cons p t ih =>
    simp only [List.map_cons, List.mem_cons] at h
    push_neg at h
    simp only [alookup, if_neg (Ne.symm h.1)]
    exact ih h.2

theorem alookup_addGroup_self (n : String) (a : List (String × ℚ)) :
    ∀ g : List (String × List (List (String × ℚ))),
      alookup (addGroup g n a) n = some (((alookup g n).getD []) ++ [a]) := by
  intro g
  induction g with
  | nil => simp [addGroup, alookup]
  | cons p t ih =>
    by_cases hp : p.1 = n
    · simp [addGroup, hp, alookup]
    · simp only [addGroup, hp, if_neg, ite_false, alookup]
      exact ih

theorem alookup_addGroup_other {n m : String} (hnm : m ≠ n)
    (a : List (String × ℚ)) :
    ∀ g : List (String × List (List (String × ℚ))),
      alookup (addGroup g n a) m = alookup g m := by
  intro g
  induction g with
  | nil => simp [addGroup, alookup, Ne.symm hnm]
  | cons p t ih =>
    by_cases hp : p.1 = n
    · subst hp
      simp [addGroup, alookup, Ne.symm hnm]
    · simp only [addGroup, hp, if_neg, ite_false, alookup]
      by_cases hm : p.1 = m
      · rw [if_pos hm, if_pos hm]
      · rw [if_neg hm, if_neg hm]
        exact ih

theorem addGroup_keys_nodup {g : List (String × List (List (String × ℚ)))}
    (hg : (g.map Prod.fst).Nodup) (n : String) (a : List (String × ℚ)) :
    ((addGroup g n a).map Prod.fst).Nodup := by
  induction g with
  | nil => simp [addGroup]
  | cons p t ih =>
    simp only [List.map_cons, List.nodup_cons] at hg
    by_cases hp : p.1 = n
    · simp only [addGroup, hp, if_pos, ite_true, List.map_cons, List.nodup_cons]
      exact hp ▸ hg
    · simp only [addGroup, hp, if_neg, ite_false, List.map_cons, List.nodup_cons]
      constructor
      · -- p.1 is not among the keys of addGroup t n a
        intro hmem
        have hkeys : ∀ k, k ∈ (addGroup t n a).map Prod.fst →
            k ∈ t.map Prod.fst ∨ k = n := by
          intro k hk
          clear hmem ih hg
          induction t with
          | nil => simp [addGroup] at hk; right; exact hk
          | cons q s ihs =>
            by_cases hq : q.1 = n
            · simp only [addGroup, hq, if_pos, ite_true, List.map_cons,
                List.mem_cons] at hk ⊢
              tauto
            · simp only [addGroup, hq, if_neg, ite_false, List.map_cons,
                List.mem_cons] at hk ⊢
              rcases hk with hk | hk
              · exact Or.inl (Or.inl hk)
              · rcases ihs hk with h' | h'
                · exact Or.inl (Or.inr h')
                · exact Or.inr h'
        rcases hkeys _ hmem with h' | h'
        · exact hg.1 h'
        · exact hp h'
      · exact ih hg.2

theorem buildGroups_keys_nodup (records : List Record) :
    ((buildGroups records).map Prod.fst).Nodup := by
  unfold buildGroups
  have hfold : ∀ (rs : List Record) (g : List (String × List (List (String × ℚ)))),
      (g.map Prod.fst).Nodup → ((rs.foldl groupStep g).map Prod.fst).Nodup := by
    intro rs
    induction rs with
    | nil => intro g hg; exact hg
    | cons r t ih =>
      intro g hg
      rw [List.foldl_cons]
      apply ih
      unfold groupStep
      split_ifs with hc
      · exact addGroup_keys_nodup hg _ _
      · exact hg
  exact hfold records [] (by simp)

theorem fold_groups_getD (n : String) :
    ∀ (records : List Record) (g : List (String × List (List (String × ℚ)))),
      ((alookup (records.foldl groupStep g) n).getD [])
        = ((alookup g n).getD []) ++
          (heatContrib records n).map (fun r => (determinePersona r).2.2.1) := by
  intro records
  induction records with
  | nil => intro g; simp [heatContrib]
  | cons r t ih =>
    intro g
    rw [List.foldl_cons]
    unfold heatContrib
    rw [List.filter_cons]
    cases hc : (validPersona (determinePersona r).2.1 &&
        !(determinePersona r).2.2.1.isEmpty) with
    | false =>
      have hstep : groupStep g r = g := by
        unfold groupStep
        rw [hc]
        rfl
      rw [hstep]
      have hrest := ih g
      unfold heatContrib at hrest
      rw [hrest]
      simp [hc]
    | true =>
      by_cases hn : (determinePersona r).2.1 = n
      · have hstep : groupStep g r = addGroup g n (determinePersona r).2.2.1 := by
          unfold groupStep
          rw [hc, hn]
          rfl
        rw [hstep]
        have hrest := ih (addGroup g n (determinePersona r).2.2.1)
        unfold heatContrib at hrest
        rw [hrest, alookup_addGroup_self n _ g]
        simp [hc, hn, List.append_assoc]
      · have hstep : groupStep g r =
            addGroup g (determinePersona r).2.1 (determinePersona r).2.2.1 := by
          unfold groupStep
          rw [hc]
          rfl
        rw [hstep]
        have hrest := ih (addGroup g (determinePersona r).2.1 (determinePersona r).2.2.1)
        unfold heatContrib at hrest
        rw [hrest, alookup_addGroup_other (fun h => hn h.symm) _ g]
        simp [hc, hn]

theorem fold_groups_isSome (n : String) :
    ∀ (records : List Record) (g : List (String × List (List (String × ℚ)))),
      (alookup (records.foldl groupStep g) n).isSome
        = ((alookup g n).isSome || !(heatContrib records n).isEmpty) := by
  intro records
  induction records with
  | nil => intro g; simp [heatContrib]
  | cons r t ih =>
    intro g
    rw [List.foldl_cons]
    unfold heatContrib
    rw [List.filter_cons]
    cases hc : (validPersona (determinePersona r).2.1 &&
        !(determinePersona r).2.2.1.isEmpty) with
    | false =>
      have hstep : groupStep g r = g := by
        unfold groupStep
        rw [hc]
        rfl
      rw [hstep]
      have hrest := ih g
      unfold heatContrib at hrest
      rw [hrest]
      simp [hc]
    | true =>
      by_cases hn : (determinePersona r).2.1 = n
      · have hstep : groupStep g r = addGroup g n (determinePersona r).2.2.1 := by
          unfold groupStep
          rw [hc, hn]
          rfl
        rw [hstep]
        have hrest := ih (addGroup g n (determinePersona r).2.2.1)
        unfold heatContrib at hrest
        rw [hrest, alookup_addGroup_self n _ g]
        simp [hc, hn]
      · have hstep : groupStep g r =
            addGroup g (determinePersona r).2.1 (determinePersona r).2.2.1 := by
          unfold groupStep
          rw [hc]
          rfl
        rw [hstep]
        have hrest := ih (addGroup g (determinePersona r).2.1 (determinePersona r).2.2.1)
        unfold heatContrib at hrest
        rw [hrest, alookup_addGroup_other (fun h => hn h.symm) _ g]
        simp [hc, hn]

/-- The per-axis averaged value used by `avgAxes`. -/
def avgVal (ls : List (List (String × ℚ))) (ax : String) : Option ℚ :=
  if (ls.filterMap (fun a => alookup a ax)).isEmpty then none
  else some (pyRound2 ((ls.filterMap (fun a => alookup a ax)).sum /
    ((ls.filterMap (fun a => alookup a ax)).length : ℚ)))

theorem avgAxes_eq (ls : List (List (String × ℚ))) :
    avgAxes ls = AXES.filterMap (fun a => (avgVal ls a).map (fun v => (a, v))) := by
  unfold avgAxes avgVal
  apply List.filterMap_congr
  intro a _
  cases he : (ls.filterMap (fun x => alookup x a)).isEmpty <;> simp [he]

theorem alookup_filterMap_axes (h : String → Option ℚ) :
    ∀ (axes : List String), axes.Nodup → ∀ ax : String,
      alookup (axes.filterMap (fun a => (h a).map (fun v => (a, v)))) ax
        = if ax ∈ axes then h ax else none := by
  intro axes
  induction axes with
  | nil => intro _ ax; simp [alookup]
  | cons a t ih =>
    intro hnd ax
    rw [List.filterMap_cons]
    simp only [List.nodup_cons] at hnd
    cases hha : h a with
    | none =>
      simp only [Option.map_none']
      rw [ih hnd.2 ax]
      by_cases hax : ax = a
      · subst hax
        simp [hnd.1, hha]
      · simp [List.mem_cons, hax]
    | some v =>
      simp only [Option.map_some']
      by_cases hax : a = ax
      · subst hax
        simp [alookup, hha]
      · simp only [alookup, if_neg hax]
        rw [ih hnd.2 ax]
        have hiff : ax ∈ a :: t ↔ ax ∈ t := by
          constructor
          · intro hm
            rcases List.mem_cons.mp hm with h' | h'
            · exact absurd h'.symm hax
            · exact h'
          · exact fun hm => List.mem_cons_of_mem a hm
        simp [hiff]

theorem alookup_filterMap_keyed {β γ : Type} (h : String → β → Option γ) :
    ∀ (g : List (String × β)), (g.map Prod.fst).Nodup → ∀ n : String,
      alookup (g.filterMap (fun p => (h p.1 p.2).map (fun y => (p.1, y)))) n
        = (match alookup g n with
           | none => none
           | some b => h n b) := by
  intro g
  induction g with
  | nil => intro _ n; simp [alookup]
  | cons p t ih =>
    intro hnd n
    rw [List.filterMap_cons]
    simp only [List.map_cons, List.nodup_cons] at hnd
    cases hhp : h p.1 p.2 with
    | none =>
      simp only [Option.map_none']
      rw [ih hnd.2 n]
      by_cases hpn : p.1 = n
      · subst hpn
        have hnone : alookup t p.1 = none := alookup_eq_none hnd.1
        simp [alookup, hnone, hhp]
      · simp [alookup, hpn]
    | some y =>
      simp only [Option.map_some']
      by_cases hpn : p.1 = n
      · subst hpn
        simp [alookup, hhp]
      · simp only [alookup, if_neg hpn]
        exact ih hnd.2 n

/-- The value kept per persona by the heatmap assembly. -/
def heatVal (ls : List (List (String × ℚ))) : Option (List (String × ℚ)) :=
  if ls.isEmpty then none
  else if (avgAxes ls).isEmpty then none else some (avgAxes ls)

theorem heatmap_eq (records : List Record) :
    generateTaamHeatmap records = (buildGroups records).filterMap
      (fun p => (heatVal p.2).map (fun y => (p.1, y))) := by
  unfold generateTaamHeatmap heatVal
  apply List.filterMap_congr
  intro p _
  cases he : p.2.isEmpty
  · cases ha : (avgAxes p.2).isEmpty <;> simp [he, ha]
  · simp [he]

/-- C9 amended: in observed-mode heatmap generation, only rows with a valid
persona and a nonempty axis-score mapping contribute; a persona with no
contributing rows is absent from the heatmap; and for each present persona
and each of the six axes, the emitted value is the average over the
contributing rows that have that axis (rows missing the axis excluded, not
zeroed), rounded to 2 decimals with Python `round`. -/
theorem c9_heatmap (records : List Record) (n : String) :
    (heatContrib records n = [] → alookup (generateTaamHeatmap records) n = none) ∧
    (∀ m, alookup (generateTaamHeatmap records) n = some m →
      heatContrib records n ≠ [] ∧
      ∀ ax ∈ AXES, alookup m ax =
        (if ((heatContrib records n).filterMap
              (fun r => alookup (determinePersona r).2.2.1 ax)).isEmpty then none
         else some (pyRound2
           (((heatContrib records n).filterMap
              (fun r => alookup (determinePersona r).2.2.1 ax)).sum /
            (((heatContrib records n).filterMap
              (fun r => alookup (determinePersona r).2.2.1 ax)).length : ℚ))))) := by
  have hlk := alookup_filterMap_keyed (fun _ ls => heatVal ls) (buildGroups records)
    (buildGroups_keys_nodup records) n
  rw [← heatmap_eq] at hlk
  constructor
  · intro hempty
    have hns : (alookup (buildGroups records) n).isSome = false := by
      unfold buildGroups
      rw [fold_groups_isSome n records []]
      simp [alookup, hempty]
    rw [hlk]
    cases halo : alookup (buildGroups records) n with
    | none => rfl
    | some ls => rw [halo] at hns; simp at hns
  · intro m hm
    rw [hlk] at hm
    cases halo : alookup (buildGroups records) n with
    | none => rw [halo] at hm; simp at hm
    | some ls =>
      rw [halo] at hm
      simp only at hm
      unfold heatVal at hm
      split_ifs at hm with hls havg
      obtain rfl := Option.some_injective _ hm
      have hls_eq : ls = (heatContrib records n).map
          (fun r => (determinePersona r).2.2.1) := by
        have hg := fold_groups_getD n records []
        unfold buildGroups at halo
        rw [halo] at hg
        simpa [alookup] using hg
      constructor
      · intro hce
        rw [hls_eq, hce] at hls
        simp at hls
      · intro ax hax
        rw [avgAxes_eq, alookup_filterMap_axes _ AXES (by decide) ax, if_pos hax]
        unfold avgVal
        rw [hls_eq, List.filterMap_map]
        rfl

/-! ## Concrete computed-path classification for the C9 counterexample -/

/-- A respondent whose computed axis vector is the Seamless Shoppers
prototype except for Convenience `4.75`. -/
def c9rec2 : Record := fun k =>
  if k = "q8" ∨ k = "q9" ∨ k = "q14" ∨ k = "q15" ∨ k = "q23" ∨ k = "q16"
      ∨ k = "q17" ∨ k = "q22" then some (Val.vnum 2.5)
  else if k = "q10" ∨ k = "q11" ∨ k = "q12" ∨ k = "q13" then some (Val.vnum 3.25)
  else if k = "q18" ∨ k = "q19" then some (Val.vnum 4.75)
  else none

def sc2map : List (String × ℚ) :=
  [("Price", (5/2 : ℚ)), ("Quality", 13/4), ("Ingredients", 13/4),
   ("Social Pressure", 5/2), ("Brand Image", 5/2), ("Convenience", 19/4)]

theorem computeAllAxes_c9rec2 : computeAllAxes c9rec2 = sc2map := by
  have hpr10 : pyRound (10 : ℚ) = 10 := by
    rw [pyRound_eval (f := 10) (by norm_num) (by norm_num)]
    norm_num
  have hpr13 : pyRound (13 : ℚ) = 13 := by
    rw [pyRound_eval (f := 13) (by norm_num) (by norm_num)]
    norm_num
  have hpr19 : pyRound (19 : ℚ) = 19 := by
    rw [pyRound_eval (f := 19) (by norm_num) (by norm_num)]
    norm_num
  norm_num +decide [computeAllAxes, AXES, computeAxisScore, alookup, AXIS_WEIGHTS,
    axisAccum, axisStep, c9rec2, mapAnswerToScale, roundToQuarter, hpr10, hpr13,
    hpr19, List.filterMap_cons, sc2map]

theorem userVec_sc2map :
    userVec sc2map = [5/2, 13/4, 13/4, 5/2, 5/2, 19/4] := rfl

theorem classify_c9rec2 :
    determinePersona c9rec2 = ("A", "Seamless Shoppers", sc2map, false) := by
  have hmax : ∀ x ∈ simPairs sc2map,
      x.2 ≤ cosineSimilarity (userVec sc2map) [2.5, 3.25, 3.25, 2.5, 2.5, 5.0] := by
    intro x hx
    unfold simPairs at hx
    obtain ⟨p, hp, rfl⟩ := List.mem_map.mp hx
    simp only
    rw [userVec_sc2map]
    fin_cases hp
    · exact le_refl _
    · exact cosineSimilarity_le_of_sq (by norm_num [dotQ, List.zipWith])
        (by norm_num [dotQ, List.zipWith]) (by norm_num [dotQ, List.zipWith])
        (by norm_num [dotQ, List.zipWith]) (by norm_num [dotQ, List.zipWith])
        (by norm_num [dotQ, List.zipWith])
    · exact cosineSimilarity_le_of_sq (by norm_num [dotQ, List.zipWith])
        (by norm_num [dotQ, List.zipWith]) (by norm_num [dotQ, List.zipWith])
        (by norm_num [dotQ, List.zipWith]) (by norm_num [dotQ, List.zipWith])
        (by norm_num [dotQ, List.zipWith])
    · exact cosineSimilarity_le_of_sq (by norm_num [dotQ, List.zipWith])
        (by norm_num [dotQ, List.zipWith]) (by norm_num [dotQ, List.zipWith])
        (by norm_num [dotQ, List.zipWith]) (by norm_num [dotQ, List.zipWith])
        (by norm_num [dotQ, List.zipWith])
    · exact cosineSimilarity_le_of_sq (by norm_num [dotQ, List.zipWith])
        (by norm_num [dotQ, List.zipWith]) (by norm_num [dotQ, List.zipWith])
        (by norm_num [dotQ, List.zipWith]) (by norm_num [dotQ, List.zipWith])
        (by norm_num [dotQ, List.zipWith])
    · exact cosineSimilarity_le_of_sq (by norm_num [dotQ, List.zipWith])
        (by norm_num [dotQ, List.zipWith]) (by norm_num [dotQ, List.zipWith])
        (by norm_num [dotQ, List.zipWith]) (by norm_num [dotQ, List.zipWith])
        (by norm_num [dotQ, List.zipWith])
    · exact cosineSimilarity_le_of_sq (by norm_num [dotQ, List.zipWith])
        (by norm_num [dotQ, List.zipWith]) (by norm_num [dotQ, List.zipWith])
        (by norm_num [dotQ, List.zipWith]) (by norm_num [dotQ, List.zipWith])
        (by norm_num [dotQ, List.zipWith])
    · exact cosineSimilarity_le_of_sq (by norm_num [dotQ, List.zipWith])
        (by norm_num [dotQ, List.zipWith]) (by norm_num [dotQ, List.zipWith])
        (by norm_num [dotQ, List.zipWith]) (by norm_num [dotQ, List.zipWith])
        (by norm_num [dotQ, List.zipWith])
    · exact cosineSimilarity_le_of_sq (by norm_num [dotQ, List.zipWith])
        (by norm_num [dotQ, List.zipWith]) (by norm_num [dotQ, List.zipWith])
        (by norm_num [dotQ, List.zipWith]) (by norm_num [dotQ, List.zipWith])
        (by norm_num [dotQ, List.zipWith])
    · exact cosineSimilarity_le_of_sq (by norm_num [dotQ, List.zipWith])
        (by norm_num [dotQ, List.zipWith]) (by norm_num [dotQ, List.zipWith])
        (by norm_num [dotQ, List.zipWith]) (by norm_num [dotQ, List.zipWith])
        (by norm_num [dotQ, List.zipWith])
  have hfc : (findClosestPersona sc2map).1 = "A" ∧
      (findClosestPersona sc2map).2.1 = "Seamless Shoppers" := by
    obtain ⟨A, B, C⟩ := pickBest_spec (simPairs sc2map) (("", ""), -1)
    set r := pickBest (simPairs sc2map) (("", ""), -1) with hrdef
    obtain ⟨rest, hhead⟩ := simPairs_first sc2map
    have hAnn : (0 : ℝ) ≤
        cosineSimilarity (userVec sc2map) [2.5, 3.25, 3.25, 2.5, 2.5, 5.0] :=
      cosineSimilarity_nonneg
        (userVec_nonneg (by intro p hp; fin_cases hp <;> norm_num))
        (by intro x hx; fin_cases hx <;> norm_num)
    have hmemA : (("A", "Seamless Shoppers"), cosineSimilarity (userVec sc2map)
        [2.5, 3.25, 3.25, 2.5, 2.5, 5.0]) ∈ simPairs sc2map := by
      rw [hhead]
      exact List.mem_cons_self _ _
    rcases C with hC | ⟨l1, l2, hsplit, hpre, -⟩
    · exfalso
      have hle := A _ hmemA
      rw [hC] at hle
      simp only at hle
      linarith
    · have hr2le : r.2 ≤ cosineSimilarity (userVec sc2map)
          [2.5, 3.25, 3.25, 2.5, 2.5, 5.0] := by
        apply hmax
        rw [hsplit]
        exact List.mem_append_right _ (List.mem_cons_self _ _)
      have hr2ge : cosineSimilarity (userVec sc2map)
          [2.5, 3.25, 3.25, 2.5, 2.5, 5.0] ≤ r.2 := by
        have := A _ hmemA
        simpa using this
      cases l1 with
      | cons x xs =>
        exfalso
        have hx : x = (("A", "Seamless Shoppers"), cosineSimilarity (userVec sc2map)
            [2.5, 3.25, 3.25, 2.5, 2.5, 5.0]) := by
          have heq := hhead.symm.trans hsplit
          simp only [List.cons_append] at heq
          exact (List.cons.inj heq).1.symm
        have := hpre x (List.mem_cons_self x xs)
        rw [hx] at this
        simp only at this
        linarith
      | nil =>
        have heq := hhead.symm.trans hsplit
        simp only [List.nil_append] at heq
        have hre := (List.cons.inj heq).1
        constructor
        · unfold findClosestPersona
          simp only
          rw [← hrdef, ← hre]
        · unfold findClosestPersona
          simp only
          rw [← hrdef, ← hre]
  unfold determinePersona
  rw [show anchorCode c9rec2 = none from rfl]
  simp only
  rw [computeAllAxes_c9rec2]
  rw [if_neg (by decide)]
  rw [hfc.1, hfc.2]

def sc1map : List (String × ℚ) :=
  [("Price", (2.5 : ℚ)), ("Quality", 3.25), ("Ingredients", 3.25),
   ("Social Pressure", 2.5), ("Brand Image", 2.5), ("Convenience", 5.0)]

theorem classify_c1rec :
    determinePersona c1rec = ("A", "Seamless Shoppers", sc1map, true) := rfl

def c9heat : List (String × ℚ) :=
  [("Price", (5/2 : ℚ)), ("Quality", 13/4), ("Ingredients", 13/4),
   ("Social Pressure", 5/2), ("Brand Image", 5/2), ("Convenience", 122/25)]

theorem avgAxes_c9 : avgAxes [sc1map, sc2map] = c9heat := by
  have hpr250 : pyRound (250 : ℚ) = 250 := by
    rw [pyRound_eval (f := 250) (by norm_num) (by norm_num)]
    norm_num
  have hpr325 : pyRound (325 : ℚ) = 325 := by
    rw [pyRound_eval (f := 325) (by norm_num) (by norm_num)]
    norm_num
  have hpr975 : pyRound (975/2 : ℚ) = 488 := by
    rw [pyRound_eval (f := 487) (by norm_num) (by norm_num)]
    norm_num
  norm_num +decide [avgAxes, AXES, alookup, pyRound2, hpr250, hpr325, hpr975,
    List.filterMap_cons, sc1map, sc2map, c9heat]

theorem buildGroups_c9 :
    buildGroups [c1rec, c9rec2] = [("Seamless Shoppers", [sc1map, sc2map])] := by
  have hg1 : groupStep [] c1rec = [("Seamless Shoppers", [sc1map])] := rfl
  have hg2 : groupStep [("Seamless Shoppers", [sc1map])] c9rec2
      = [("Seamless Shoppers", [sc1map, sc2map])] := by
    unfold groupStep
    rw [classify_c9rec2]
    simp only
    rw [if_pos (by decide)]
    rfl
  unfold buildGroups
  simp only [List.foldl_cons, List.foldl_nil]
  rw [hg1, hg2]

theorem heatmap_c9 :
    generateTaamHeatmap [c1rec, c9rec2] = [("Seamless Shoppers", c9heat)] := by
  rw [heatmap_eq, buildGroups_c9]
  simp only [List.filterMap_cons, List.filterMap_nil]
  have hv : heatVal [sc1map, sc2map] = some c9heat := by
    unfold heatVal
    rw [if_neg (by decide), avgAxes_c9, if_neg (by decide)]
  rw [hv]
  rfl

theorem heatContrib_c9 :
    heatContrib [c1rec, c9rec2] "Seamless Shoppers" = [c1rec, c9rec2] := by
  unfold heatContrib
  simp only [List.filter_cons, List.filter_nil]
  have hc1 : ((validPersona (determinePersona c1rec).2.1 &&
      !(determinePersona c1rec).2.2.1.isEmpty) &&
      ((determinePersona c1rec).2.1 == "Seamless Shoppers")) = true := by
    rw [classify_c1rec]
    decide
  have hc2 : ((validPersona (determinePersona c9rec2).2.1 &&
      !(determinePersona c9rec2).2.2.1.isEmpty) &&
      ((determinePersona c9rec2).2.1 == "Seamless Shoppers")) = true := by
    rw [classify_c9rec2]
    decide
  simp [hc1, hc2]

/-- C9 counterexample: a table with one anchored Seamless-Shoppers row
(Convenience 5.0) and one computed Seamless-Shoppers row (Convenience 4.75).
The exact Convenience average over the contributing rows is 4.875, but the
heatmap emits `round(4.875, 2) = 4.88`: the emitted value is the rounded
average, not the average itself, so the claim is false as stated. -/
theorem c9_exact_average_refuted :
    (∃ m, alookup (generateTaamHeatmap [c1rec, c9rec2]) "Seamless Shoppers"
        = some m ∧ alookup m "Convenience" = some (122/25)) ∧
    ((heatContrib [c1rec, c9rec2] "Seamless Shoppers").filterMap
        (fun r => alookup (determinePersona r).2.2.1 "Convenience")).sum /
      (((heatContrib [c1rec, c9rec2] "Seamless Shoppers").filterMap
        (fun r => alookup (determinePersona r).2.2.1 "Convenience")).length : ℚ)
      = 39/8 ∧
    (122/25 : ℚ) ≠ 39/8 := by
  refine ⟨⟨c9heat, ?_, ?_⟩, ?_, by norm_num⟩
  · rw [heatmap_c9]
    rfl
  · rfl
  · rw [heatContrib_c9]
    simp only [List.filterMap_cons, List.filterMap_nil]
    rw [classify_c1rec, classify_c9rec2]
    have h1 : alookup sc1map "Convenience" = some 5.0 := rfl
    have h2 : alookup sc2map "Convenience" = some (19/4) := rfl
    rw [h1, h2]
    norm_num

def c9heat1 : List (String × ℚ) :=
  [("Price", (5/2 : ℚ)), ("Quality", 13/4), ("Ingredients", 13/4),
   ("Social Pressure", 5/2), ("Brand Image", 5/2), ("Convenience", 5)]

theorem c9_heatmap_witness :
    heatContrib [c1rec] "Value Hunters" = [] ∧
    alookup (generateTaamHeatmap [c1rec]) "Value Hunters" = none ∧
    (∃ m, alookup (generateTaamHeatmap [c1rec]) "Seamless Shoppers" = some m ∧
      (heatContrib [c1rec] "Seamless Shoppers" ≠ [] ∧
       ∀ ax ∈ AXES, alookup m ax =
        (if ((heatContrib [c1rec] "Seamless Shoppers").filterMap
              (fun r => alookup (determinePersona r).2.2.1 ax)).isEmpty then none
         else some (pyRound2
           (((heatContrib [c1rec] "Seamless Shoppers").filterMap
              (fun r => alookup (determinePersona r).2.2.1 ax)).sum /
            (((heatContrib [c1rec] "Seamless Shoppers").filterMap
              (fun r => alookup (determinePersona r).2.2.1 ax)).length : ℚ)))))) := by
  have h0 : heatContrib [c1rec] "Value Hunters" = [] := by
    unfold heatContrib
    simp only [List.filter_cons, List.filter_nil]
    have hc1 : ((validPersona (determinePersona c1rec).2.1 &&
        !(determinePersona c1rec).2.2.1.isEmpty) &&
        ((determinePersona c1rec).2.1 == "Value Hunters")) = false := by
      rw [classify_c1rec]
      decide
    simp [hc1]
  have hbg1 : buildGroups [c1rec] = [("Seamless Shoppers", [sc1map])] := by
    have hg1 : groupStep [] c1rec = [("Seamless Shoppers", [sc1map])] := rfl
    unfold buildGroups
    simp only [List.foldl_cons, List.foldl_nil]
    exact hg1
  have havg1 : avgAxes [sc1map] = c9heat1 := by
    have hpr250 : pyRound (250 : ℚ) = 250 := by
      rw [pyRound_eval (f := 250) (by norm_num) (by norm_num)]
      norm_num
    have hpr325 : pyRound (325 : ℚ) = 325 := by
      rw [pyRound_eval (f := 325) (by norm_num) (by norm_num)]
      norm_num
    have hpr500 : pyRound (500 : ℚ) = 500 := by
      rw [pyRound_eval (f := 500) (by norm_num) (by norm_num)]
      norm_num
    norm_num +decide [avgAxes, AXES, alookup, pyRound2, hpr250, hpr325, hpr500,
      List.filterMap_cons, sc1map, c9heat1]
  have hheat1 : generateTaamHeatmap [c1rec] = [("Seamless Shoppers", c9heat1)] := by
    rw [heatmap_eq, hbg1]
    simp only [List.filterMap_cons, List.filterMap_nil]
    have hv : heatVal [sc1map] = some c9heat1 := by
      unfold heatVal
      rw [if_neg (by decide), havg1, if_neg (by decide)]
    rw [hv]
    rfl
  have hlook1 : alookup (generateTaamHeatmap [c1rec]) "Seamless Shoppers"
      = some c9heat1 := by
    rw [hheat1]
    rfl
  exact ⟨h0, (c9_heatmap [c1rec] "Value Hunters").1 h0,
    ⟨c9heat1, hlook1, (c9_heatmap [c1rec] "Seamless Shoppers").2 c9heat1 hlook1⟩⟩

end Taam
